import Mathlib

/-!
# A verification development for the LogDevice core

This file gives a shallow embedding, in Lean 4, of the parts of the LogDevice
source tree that the specification's claims are about, and settles each claim
against it:

* the LSN model `(epoch:32, esn:32)` and the `Reader::nextFromLsnWhenStuck`
  policy (§4.6 of the spec, `ClientTest.nextFromLsnWhenStuck`);
* the Zookeeper epoch store's completion pipeline
  (`ZookeeperEpochStore::completionStatus`, `postRequestCompletion`,
  `runRequest`/`onGetZnodeComplete`);
* SSL selection per destination (`Sender::useSSLWith`);
* the server configuration round trip (`ServerConfig::fromJson` /
  `ServerConfig::toJson`), modelled at key granularity;
* `RandomNodeSelector::select`;
* the buffered writer's per-log state machine
  (`BufferedWriterSingleLog`), modelled as an event-step system.

Functions of the source tree are translated directly; a few collaborators whose
implementations are not part of the tree are modelled from the specification and
are marked `Modelled from the spec:` in their doc comments.
-/

open List

namespace LogDevice

/-! ## LSN model

From the spec §3: an LSN is a 64-bit value structured as `(epoch:32, esn:32)`,
ordered lexicographically; `LSN_INVALID` is all zeros and `LSN_OLDEST` is the
successor of `(epoch 0, esn 0)`.  We embed LSNs as `Nat` with the epoch in the
high 32 bits, exactly as `compose_lsn`/`lsn_to_epoch` do in the source.  -/

def EPOCH_MAX : Nat := 2 ^ 32 - 1

def ESN_MAX : Nat := 2 ^ 32 - 1

def ESN_MIN : Nat := 1

def LSN_INVALID : Nat := 0

def compose_lsn (epoch esn : Nat) : Nat := epoch * 2 ^ 32 + esn

def lsn_to_epoch (lsn : Nat) : Nat := lsn / 2 ^ 32

def lsn_to_esn (lsn : Nat) : Nat := lsn % 2 ^ 32

def LSN_OLDEST : Nat := compose_lsn 0 1

def LSN_MAX : Nat := compose_lsn EPOCH_MAX ESN_MAX

/-- Modelled from the spec: the implementation of `Reader::nextFromLsnWhenStuck`
is not part of the source tree; only its unit test
(`ClientTest.nextFromLsnWhenStuck` in `CheckpointStoreImpl.h`'s companion test
file) is.  The definition follows the literal contract of spec §4.6

  * both `L` and `T` invalid → `LSN_OLDEST`;
  * `L` valid, `T` invalid → start of the next epoch;
  * `T` valid, `epoch(L) < epoch(T)` → start of the tail epoch
    (`epoch(LSN_INVALID) = 0`, so an invalid `L` with a tail in a positive
    epoch also lands here);
  * `T` valid, `epoch(L) ≥ epoch(T)` (in particular `epoch(L) = epoch(T)`) →
    `L` unchanged,

resolving the behaviour at `EPOCH_MAX` the way the repository's own test pins it
down: whenever the stuck LSN's epoch is already `EPOCH_MAX`, the stuck LSN is
returned unchanged (the test asserts this for both `(EPOCH_MAX, ESN_MIN)` and
`(EPOCH_MAX, ESN_MAX)` with an invalid tail).  `nextFromLsnWhenStuck_test_vectors`
below checks this definition against every assertion of the unit test. -/
def nextFromLsnWhenStuck (stuck tail : Nat) : Nat :=
  if stuck = LSN_INVALID ∧ tail = LSN_INVALID then LSN_OLDEST
  else if tail = LSN_INVALID then
    (if lsn_to_epoch stuck = EPOCH_MAX then stuck
     else compose_lsn (lsn_to_epoch stuck + 1) ESN_MIN)
  else if lsn_to_epoch stuck < lsn_to_epoch tail then
    compose_lsn (lsn_to_epoch tail) ESN_MIN
  else stuck

/-- The model reproduces every assertion of the repository's unit test
`ClientTest.nextFromLsnWhenStuck` (the only in-tree code for this function). -/
theorem nextFromLsnWhenStuck_test_vectors :
    nextFromLsnWhenStuck LSN_INVALID LSN_INVALID = LSN_OLDEST ∧
    nextFromLsnWhenStuck (compose_lsn 5 0) LSN_INVALID = compose_lsn 6 ESN_MIN ∧
    nextFromLsnWhenStuck (compose_lsn 5 ESN_MIN) LSN_INVALID = compose_lsn 6 ESN_MIN ∧
    nextFromLsnWhenStuck (compose_lsn 5 10) LSN_INVALID = compose_lsn 6 ESN_MIN ∧
    nextFromLsnWhenStuck (compose_lsn 5 ESN_MAX) LSN_INVALID = compose_lsn 6 ESN_MIN ∧
    nextFromLsnWhenStuck (compose_lsn EPOCH_MAX ESN_MIN) LSN_INVALID
      = compose_lsn EPOCH_MAX ESN_MIN ∧
    nextFromLsnWhenStuck (compose_lsn EPOCH_MAX ESN_MAX) LSN_INVALID
      = compose_lsn EPOCH_MAX ESN_MAX ∧
    nextFromLsnWhenStuck (compose_lsn 5 0) (compose_lsn 7 20) = compose_lsn 7 ESN_MIN ∧
    nextFromLsnWhenStuck (compose_lsn 5 10) (compose_lsn 7 20) = compose_lsn 7 ESN_MIN ∧
    nextFromLsnWhenStuck (compose_lsn 5 ESN_MAX) (compose_lsn 7 20) = compose_lsn 7 ESN_MIN ∧
    nextFromLsnWhenStuck (compose_lsn 7 ESN_MIN) (compose_lsn 7 20) = compose_lsn 7 ESN_MIN ∧
    nextFromLsnWhenStuck (compose_lsn 7 10) (compose_lsn 7 20) = compose_lsn 7 10 ∧
    nextFromLsnWhenStuck (compose_lsn 7 10) (compose_lsn 7 ESN_MAX) = compose_lsn 7 10 ∧
    nextFromLsnWhenStuck (compose_lsn EPOCH_MAX ESN_MIN) (compose_lsn EPOCH_MAX ESN_MIN)
      = compose_lsn EPOCH_MAX ESN_MIN ∧
    nextFromLsnWhenStuck (compose_lsn EPOCH_MAX ESN_MIN) (compose_lsn EPOCH_MAX 10)
      = compose_lsn EPOCH_MAX ESN_MIN ∧
    nextFromLsnWhenStuck (compose_lsn EPOCH_MAX ESN_MIN) (compose_lsn EPOCH_MAX ESN_MAX)
      = compose_lsn EPOCH_MAX ESN_MIN ∧
    nextFromLsnWhenStuck (compose_lsn EPOCH_MAX 10) (compose_lsn EPOCH_MAX ESN_MAX)
      = compose_lsn EPOCH_MAX 10 ∧
    nextFromLsnWhenStuck (compose_lsn EPOCH_MAX ESN_MAX) (compose_lsn EPOCH_MAX ESN_MAX)
      = compose_lsn EPOCH_MAX ESN_MAX := by
  decide

/-- C1, counterexample.  The claim states that for `L` valid and `T` invalid the
result is `(epoch(L)+1, esn=1)` clamped at `(max_epoch, max_esn)`.  At
`L = (EPOCH_MAX, ESN_MIN)`, `T` invalid, the clamped value is
`(EPOCH_MAX, ESN_MAX)`, but the function returns the stuck LSN
`(EPOCH_MAX, ESN_MIN)` unchanged — exactly what the repository's unit test
asserts at this input.  So the claim's clamp clause is false on the code. -/
theorem nextFromLsnWhenStuck_claim_counterexample :
    compose_lsn EPOCH_MAX ESN_MIN ≠ LSN_INVALID ∧
    nextFromLsnWhenStuck (compose_lsn EPOCH_MAX ESN_MIN) LSN_INVALID
      = compose_lsn EPOCH_MAX ESN_MIN ∧
    nextFromLsnWhenStuck (compose_lsn EPOCH_MAX ESN_MIN) LSN_INVALID
      ≠ min (compose_lsn (lsn_to_epoch (compose_lsn EPOCH_MAX ESN_MIN) + 1) ESN_MIN)
          LSN_MAX := by
  refine ⟨by decide, by decide, ?_⟩
  decide

/-- C1, amended.  `nextFromLsnWhenStuck` satisfies the case analysis of the
claim, with the clamp clause amended as the repository's test forces: when `L`
is valid, `T` is invalid and `epoch(L) < max_epoch`, the result is
`(epoch(L)+1, esn=1)`; when `T` is invalid and `epoch(L) = max_epoch` the
stuck LSN is returned unchanged.  The two tail-valid clauses hold for every
`L`, valid or not (`epoch(LSN_INVALID) = 0`): `epoch(L) < epoch(T)` gives
`(epoch(T), esn=1)` and `epoch(L) = epoch(T)` gives `L` unchanged.  In
particular, for `L = (epoch_max, esn_max)` and any 64-bit tail the result is
`(epoch_max, esn_max)` (saturation). -/
theorem nextFromLsnWhenStuck_characterization (L T : Nat) :
    (L = LSN_INVALID → T = LSN_INVALID → nextFromLsnWhenStuck L T = LSN_OLDEST) ∧
    (L ≠ LSN_INVALID → T = LSN_INVALID → lsn_to_epoch L < EPOCH_MAX →
      nextFromLsnWhenStuck L T = compose_lsn (lsn_to_epoch L + 1) ESN_MIN) ∧
    (L ≠ LSN_INVALID → T = LSN_INVALID → lsn_to_epoch L = EPOCH_MAX →
      nextFromLsnWhenStuck L T = L) ∧
    (T ≠ LSN_INVALID → lsn_to_epoch L < lsn_to_epoch T →
      nextFromLsnWhenStuck L T = compose_lsn (lsn_to_epoch T) ESN_MIN) ∧
    (T ≠ LSN_INVALID → lsn_to_epoch L = lsn_to_epoch T →
      nextFromLsnWhenStuck L T = L) ∧
    (lsn_to_epoch L = EPOCH_MAX → lsn_to_esn L = ESN_MAX → T < 2 ^ 64 →
      nextFromLsnWhenStuck L T = L) := by
  unfold nextFromLsnWhenStuck
  refine ⟨?_, ?_, ?_, ?_, ?_, ?_⟩
  · intro h1 h2
    rw [if_pos ⟨h1, h2⟩]
  · intro h1 h2 h3
    rw [if_neg (fun h => h1 h.1), if_pos h2, if_neg (Nat.ne_of_lt h3)]
  · intro h1 h2 h3
    rw [if_neg (fun h => h1 h.1), if_pos h2, if_pos h3]
  · intro h2 h3
    rw [if_neg (fun h => h2 h.2), if_neg h2, if_pos h3]
  · intro h2 h3
    rw [if_neg (fun h => h2 h.2), if_neg h2,
      if_neg (by omega : ¬ lsn_to_epoch L < lsn_to_epoch T)]
  · intro h1 h2 h3
    have hL0 : L ≠ LSN_INVALID := by
      intro h0
      rw [h0] at h1
      simp [lsn_to_epoch, LSN_INVALID, EPOCH_MAX] at h1
    have hTE : lsn_to_epoch T ≤ EPOCH_MAX := by
      have hdiv : T / 2 ^ 32 < 2 ^ 32 := Nat.div_lt_of_lt_mul (by norm_num at h3 ⊢; omega)
      simp only [lsn_to_epoch, EPOCH_MAX]
      omega
    by_cases hT0 : T = LSN_INVALID
    · rw [if_neg (fun h => hL0 h.1), if_pos hT0, if_pos h1]
    · rw [if_neg (fun h => hL0 h.1), if_neg hT0,
        if_neg (by omega : ¬ lsn_to_epoch L < lsn_to_epoch T)]

/-- C1, witness: the amended characterization applied at the concrete inputs
`L = (5, 10)`, `T` invalid (bump to next epoch) and at
`L = (EPOCH_MAX, ESN_MIN)`, `T` invalid (saturation). -/
theorem nextFromLsnWhenStuck_characterization_witness :
    nextFromLsnWhenStuck (compose_lsn 5 10) LSN_INVALID = compose_lsn 6 ESN_MIN ∧
    nextFromLsnWhenStuck (compose_lsn EPOCH_MAX ESN_MIN) LSN_INVALID
      = compose_lsn EPOCH_MAX ESN_MIN :=
  ⟨(nextFromLsnWhenStuck_characterization (compose_lsn 5 10) LSN_INVALID).2.1
      (by decide) rfl (by decide),
   (nextFromLsnWhenStuck_characterization (compose_lsn EPOCH_MAX ESN_MIN) LSN_INVALID).2.2.1
      (by decide) rfl (by decide)⟩

/-! ## Zookeeper epoch store (`ZookeeperEpochStore.cpp`)

The request pipeline of `ZookeeperEpochStore` is: `runRequest` issues a
`getData` on the log's znode; `onGetZnodeComplete` deserializes, applies the
request's `applyChanges`, and — for the read-modify-write case — issues a
single conditional `setData` carrying the version read; the `setData` callback
posts the completion with `completionStatus` applied to the Zookeeper return
code.  There is no retry loop anywhere in this pipeline. -/

inductive Status where
  | OK | AGAIN | NOTFOUND | FAILED | INTERNAL | NOTCONN | ACCESS
  | VERSION_MISMATCH | SHUTDOWN | BADMSG | UPTODATE | TIMEDOUT | UNKNOWN
deriving DecidableEq, Repr

inductive ZkRc where
  | ZOK | ZNONODE | ZBADVERSION | ZRUNTIMEINCONSISTENCY | ZBADARGUMENTS
  | ZINVALIDSTATE | ZCONNECTIONLOSS | ZCLOSING
deriving DecidableEq, Repr

inductive ZkSessionState where
  | EXPIRED_SESSION | AUTH_FAILED | CONNECTED
deriving DecidableEq, Repr

/-- Modelled from the spec: `ZookeeperClientBase::toStatus` is not part of the
source tree.  The only mapping the claims depend on is
`ZBADVERSION ↦ E::VERSION_MISMATCH`, which the source itself documents in
`onGetZnodeComplete` ("If the versions do not match zkSetCf() will be called
with status ZBADVERSION"); the remaining cases are the standard mapping. -/
def toStatus : ZkRc → Status
  | .ZOK => .OK
  | .ZNONODE => .NOTFOUND
  | .ZBADVERSION => .VERSION_MISMATCH
  | .ZCONNECTIONLOSS => .TIMEDOUT
  | .ZCLOSING => .SHUTDOWN
  | _ => .FAILED

/-- `ZookeeperEpochStore::completionStatus` (source lines 68–122): special
cases for `ZRUNTIMEINCONSISTENCY`, `ZBADARGUMENTS` and `ZINVALIDSTATE`
(session-state dependent), then `toStatus`, mapping `VERSION_MISMATCH` to
`E::AGAIN`. -/
def completionStatus (zstate : ZkSessionState) (rc : ZkRc) : Status :=
  if rc = .ZRUNTIMEINCONSISTENCY then .FAILED
  else if rc = .ZBADARGUMENTS then .INTERNAL
  else if rc = .ZINVALIDSTATE then
    (match zstate with
     | .EXPIRED_SESSION => .NOTCONN
     | .AUTH_FAILED => .ACCESS
     | .CONNECTED => .FAILED)
  else
    (let st := toStatus rc
     if st = .VERSION_MISMATCH then .AGAIN else st)

/-- `ZookeeperEpochStore::postRequestCompletion` (source lines 343–355):
the completion is posted unless the status is `E::SHUTDOWN` *and* the store's
shutting-down flag is set.  `some st` means the completion callback is posted
with status `st`; `none` means it is suppressed. -/
def postRequestCompletion (shuttingDown : Bool) (st : Status) : Option Status :=
  if st ≠ Status.SHUTDOWN ∨ shuttingDown = false then some st else none

/-- `ZookeeperEpochStoreRequest::NextStep` (the source's enum). -/
inductive NextStep where
  | PROVISION | MODIFY | STOP | FAILED_STEP
deriving DecidableEq, Repr

/-- The ZK operations the pipeline can issue, for counting CAS attempts. -/
inductive ZkOp where
  | opGetData | opSetData | opMulti
deriving DecidableEq, Repr

/-- Environment responses for one execution of `ZookeeperEpochStore::runRequest`:
the return code of the initial `getData`, the status of
`legacyDeserializeIntoLogMetaData`, the request's `applyChanges` decision (and
the thread-local `err` it sets when stopping/failing), the return code of the
conditional `setData` (the CAS), the return code of the provisioning `multiOp`,
the ZK session state, and the store's shutting-down flag. -/
structure RmwExec where
  getRc : ZkRc
  deserSt : Status
  next : NextStep
  errVar : Status
  setRc : ZkRc
  multiRc : ZkRc
  zstate : ZkSessionState
  shuttingDown : Bool
deriving DecidableEq, Repr

/-- One synchronous execution of `runRequest`/`onGetZnodeComplete` and the
completion callback chain (source lines 223–368), returning the completion
posted to the caller (`none` if suppressed) and the list of ZK operations
performed, in order.  The root-znode-creation retry of `provisionLogZnodes` is
not unrolled (the claims do not concern it); a `PROVISION` step performs its
`multiOp` and posts the completion of its result. -/
def runRequestExec (e : RmwExec) : Option Status × List ZkOp :=
  let post := postRequestCompletion e.shuttingDown
  let st0 := completionStatus e.zstate e.getRc
  if st0 = .OK ∧ e.deserSt ≠ .OK then
    -- deserialization failed: goto err/done, post the deserialization status
    (post e.deserSt, [.opGetData])
  else if st0 = .OK ∨ st0 = .NOTFOUND then
    -- applyChanges
    (match e.next with
     | .STOP => (post e.errVar, [.opGetData])
     | .FAILED_STEP => (post e.errVar, [.opGetData])
     | .PROVISION =>
        (post (completionStatus e.zstate e.multiRc), [.opGetData, .opMulti])
     | .MODIFY =>
        -- the single conditional setData; its callback posts the completion
        (post (completionStatus e.zstate e.setRc), [.opGetData, .opSetData]))
  else
    -- anything else is an error: post it
    (post st0, [.opGetData])

/-- C6, counterexample.  The claim says a CAS conflict is "retried internally
with exponential backoff up to a cap".  In the execution in which the store
reads the znode fine and the conditional `setData` comes back `ZBADVERSION`,
the pipeline performs exactly one `setData` (no second CAS attempt exists
anywhere in `ZookeeperEpochStore`) and immediately posts `E::AGAIN` to the
caller: there is no internal retry. -/
theorem epochStore_internal_retry_counterexample :
    runRequestExec
        { getRc := .ZOK, deserSt := .OK, next := .MODIFY, errVar := .OK,
          setRc := .ZBADVERSION, multiRc := .ZOK, zstate := .CONNECTED,
          shuttingDown := false }
      = (some .AGAIN, [.opGetData, .opSetData]) ∧
    ([ZkOp.opGetData, ZkOp.opSetData].count ZkOp.opSetData = 1) := by
  exact ⟨by decide, by decide⟩

/-- C6, amended.  A version mismatch reported by the coordination store on the
read-modify-write's conditional `setData` is *not* retried inside the epoch
store: the request performs exactly one `getData` and one `setData` and the
completion posted to the caller is `E::AGAIN` (the "try again" status); retrying
is left to the caller. -/
theorem epochStore_version_mismatch_no_internal_retry (e : RmwExec)
    (hget : e.getRc = .ZOK) (hdeser : e.deserSt = .OK) (hnext : e.next = .MODIFY)
    (hset : e.setRc = .ZBADVERSION) (hsd : e.shuttingDown = false) :
    runRequestExec e = (some .AGAIN, [.opGetData, .opSetData]) := by
  simp [runRequestExec, hget, hdeser, hnext, hset, hsd, completionStatus, toStatus,
    postRequestCompletion]

/-- C6, witness: the no-internal-retry theorem applied at a concrete conflicting
execution. -/
theorem epochStore_version_mismatch_no_internal_retry_witness :
    runRequestExec
        { getRc := .ZOK, deserSt := .OK, next := .MODIFY, errVar := .OK,
          setRc := .ZBADVERSION, multiRc := .ZOK, zstate := .EXPIRED_SESSION,
          shuttingDown := false }
      = (some .AGAIN, [.opGetData, .opSetData]) :=
  epochStore_version_mismatch_no_internal_retry _ rfl rfl rfl rfl rfl

/-- C7, counterexample.  The claim says that while the shutting-down flag is
set no completion is ever posted.  But `postRequestCompletion` posts whenever
the status differs from `E::SHUTDOWN`, regardless of the flag: a request
completing with `E::OK` during shutdown still posts its completion. -/
theorem postRequestCompletion_posts_during_shutdown :
    postRequestCompletion true .OK = some .OK := by
  decide

/-- C7, amended.  The completion is suppressed exactly when the completion
status is `E::SHUTDOWN` *and* the store's shutting-down flag is set; a request
completing with any other status posts its completion even while shutting
down (the source's comment explains why: an `E::SHUTDOWN` code can also arrive
from a Zookeeper-client quorum change while the store itself stays alive). -/
theorem postRequestCompletion_suppression_iff (sd : Bool) (st : Status) :
    postRequestCompletion sd st = none ↔ (st = Status.SHUTDOWN ∧ sd = true) := by
  cases sd <;> cases st <;> simp [postRequestCompletion]

/-! ## SSL selection (`Sender::useSSLWith`, source lines 829–853)

`useSSLWith` computes `cross_boundary` by comparing the local and remote
failure-domain locations against the configured `ssl_boundary` scope, computes
`authentication` from the cluster's authentication type, and returns
`cross_boundary || authentication`. -/

inductive NodeLocationScope where
  | NODE | RACK | ROW | CLUSTER | DATA_CENTER | REGION | ROOT
deriving DecidableEq, Repr

inductive AuthenticationType where
  | NONE | SELF_IDENTIFICATION | SSL
deriving DecidableEq, Repr

/-- The number of location labels that two locations must share to share a
scope: a location is a path of labels from region down to rack (spec §3/§4.1),
and sharing scope `S` means agreeing on all labels down to `S`. -/
def scopeDepth : NodeLocationScope → Nat
  | .ROOT => 0
  | .REGION => 1
  | .DATA_CENTER => 2
  | .CLUSTER => 3
  | .ROW => 4
  | .RACK => 5
  | .NODE => 6

/-- Modelled from the spec: `configuration::nodes::getNodeSSL` is not part of
the source tree.  Per spec §4.1/§6.2, two locations cross the `ssl_boundary`
scope exactly when they differ at or above that scope, i.e. when their label
paths disagree within the boundary scope's depth. -/
def crossesBoundary (myLoc theirLoc : List String) (boundary : NodeLocationScope) : Bool :=
  decide (myLoc.take (scopeDepth boundary) ≠ theirLoc.take (scopeDepth boundary))

/-- `Sender::useSSLWith` (source lines 829–853): SSL is used when the
destination is across the `ssl_boundary` *or* when the cluster authentication
type is SSL. -/
def useSSLWith (myLoc theirLoc : List String) (sslBoundary : NodeLocationScope)
    (authType : AuthenticationType) : Bool :=
  let crossBoundary := crossesBoundary myLoc theirLoc sslBoundary
  let authentication := authType = AuthenticationType.SSL
  crossBoundary || authentication

/-- C9, counterexample.  The claim says SSL is used *exactly* when the two
locations differ at or above the `ssl_boundary` scope.  With identical
locations (no boundary crossing at any scope) but SSL authentication
configured, `useSSLWith` still returns `true`: the location comparison is not
the only input to the decision. -/
theorem useSSLWith_not_location_only :
    useSSLWith ["rgn1", "dc1", "cl1", "row1", "rack1"]
        ["rgn1", "dc1", "cl1", "row1", "rack1"] .RACK .SSL = true ∧
    crossesBoundary ["rgn1", "dc1", "cl1", "row1", "rack1"]
        ["rgn1", "dc1", "cl1", "row1", "rack1"] .RACK = false := by
  exact ⟨by decide, by decide⟩

/-- C9, amended.  A connection to a destination uses SSL iff the local and
remote locations differ at or above the configured `ssl_boundary` scope *or*
the cluster's authentication type is SSL. -/
theorem useSSLWith_iff (myLoc theirLoc : List String) (b : NodeLocationScope)
    (auth : AuthenticationType) :
    useSSLWith myLoc theirLoc b auth = true ↔
      (crossesBoundary myLoc theirLoc b = true ∨ auth = AuthenticationType.SSL) := by
  simp [useSSLWith]

/-! ## Server configuration round trip (`ServerConfig.cpp`)

The claims about `fromJson`/`toJson` are settled at key granularity: the
recognized-key set (source lines 48–64), the custom-field extraction loop of
`fromJson` (lines 136–144) and the key set emitted by `toJson` (lines 431–491)
are all in the source; the individual `parse*` helpers are not needed for the
claim.  JSON values are abstracted to strings. -/

def config_recognized_keys : List String :=
  ["client_settings", "cluster", "cluster_creation_time", "defaults",
   "log_namespace_delimiter", "logs", "nodes", "metadata_logs", "principals",
   "security_information", "server_settings", "traffic_shaping",
   "read_throttling", "version", "zookeeper"]

def default_namespace_delimiter : String := "/"

/-- The in-memory `ServerConfig` fields that decide which keys `toJson`
emits; section contents are abstracted to opaque strings. -/
structure ServerConfigData where
  clusterName : String
  version : Nat
  internalLogs : String
  principals : String
  readThrottling : String
  trafficShaping : String
  serverSettings : String
  clientSettings : String
  metaDataLogGroup : Option String
  clusterCreationTime : Option Nat
  nsDelimiter : String
  securityEnabled : Bool
  securityInfo : String
  customFields : List (String × String)
deriving DecidableEq, Repr

/-- `ServerConfig::toJson` (source lines 431–491), at key granularity: the
always-emitted sections, then `metadata_logs` (only when the metadata log group
exists), `cluster_creation_time`, `logs` (only with `with_logs`), the namespace
delimiter (only when non-default), `security_information` (only when enabled),
`zookeeper` (only with `with_zk`), and finally the custom fields. -/
def toJson (c : ServerConfigData) (withLogs : Option String) (withZk : Option String) :
    List (String × String) :=
  [("cluster", c.clusterName), ("version", toString c.version),
   ("internal_logs", c.internalLogs), ("principals", c.principals),
   ("read_throttling", c.readThrottling), ("traffic_shaping", c.trafficShaping),
   ("server_settings", c.serverSettings), ("client_settings", c.clientSettings)]
  ++ (match c.metaDataLogGroup with
      | some m => [("metadata_logs", m)]
      | none => [])
  ++ (match c.clusterCreationTime with
      | some t => [("cluster_creation_time", toString t)]
      | none => [])
  ++ (match withLogs with
      | some l => [("logs", l)]
      | none => [])
  ++ (if c.nsDelimiter ≠ default_namespace_delimiter
      then [("log_namespace_delimiter", c.nsDelimiter)] else [])
  ++ (if c.securityEnabled then [("security_information", c.securityInfo)] else [])
  ++ (match withZk with
      | some z => [("zookeeper", z)]
      | none => [])
  ++ c.customFields

/-- The custom-field extraction loop of `ServerConfig::fromJson` (source lines
136–144): every top-level key not in `config_recognized_keys` is kept as a
custom field. -/
def fromJsonCustomFields (j : List (String × String)) : List (String × String) :=
  j.filter (fun kv => !(config_recognized_keys.contains kv.1))

/-- A minimal concrete configuration (no optional sections, no custom
fields). -/
def sampleConfig : ServerConfigData :=
  { clusterName := "c1", version := 1, internalLogs := "il",
    principals := "p", readThrottling := "rt", trafficShaping := "ts",
    serverSettings := "ss", clientSettings := "cs",
    metaDataLogGroup := none, clusterCreationTime := none,
    nsDelimiter := "/", securityEnabled := false, securityInfo := "",
    customFields := [] }

/-- C8 (code bug).  `toJson` always emits the `internal_logs` section (source
line 439) and `fromJson` parses it (`parseInternalLogs`, line 130), but
`internal_logs` is missing from `config_recognized_keys` (lines 48–64).
Consequently, re-parsing a serialized configuration turns the emitted
`internal_logs` section into a *new* custom field: the round trip is not the
identity (the custom-field set grows), contradicting both the claim and the
code's own categorization of keys "supposed to be parsed by logdevice". -/
theorem serverconfig_roundtrip_internal_logs_bug :
    ((toJson sampleConfig none none).map Prod.fst).contains "internal_logs" = true ∧
    config_recognized_keys.contains "internal_logs" = false ∧
    fromJsonCustomFields (toJson sampleConfig none none) = [("internal_logs", "il")] ∧
    sampleConfig.customFields = [] := by
  exact ⟨by decide, by decide, by decide, by decide⟩

/-! ## `RandomNodeSelector::select`

Modelled from the spec: the implementation of `RandomNodeSelector::select` is
not part of the source tree; only its unit test (`RandomNodeSelectorTest`) is.
Per spec §4.3 the selector receives a candidate set, the existing / blacklisted
/ graylisted sets, a required count, an extras budget, an optional seed and a
liveness filter, and guarantees: a result of size `required + k` (`0 ≤ k ≤
extras`) of eligible candidates, or empty when fewer than `required` eligible
candidates exist; determinism regardless of candidate iteration order for a
fixed seed; and graylisted candidates used only after all non-graylisted
eligible candidates are exhausted.  The model canonicalizes the candidate list
(sorting by a seed-keyed order and removing duplicates, which is what makes the
function independent of iteration order), prefers non-graylisted eligible
candidates, and fills up to `required + extras`.  The pseudo-random order is
abstracted to the injective key `seed ^^^ node`.
`select_test_vectors` checks the model against the in-tree
`SourceSelectBasicTest` assertions. -/

def keyRel (seed : Nat) (a b : Nat) : Prop := seed ^^^ a ≤ seed ^^^ b

instance (seed : Nat) : DecidableRel (keyRel seed) := fun _ _ => Nat.decLe _ _

instance (seed : Nat) : IsTotal Nat (keyRel seed) := ⟨fun _ _ => Nat.le_total _ _⟩

instance (seed : Nat) : IsTrans Nat (keyRel seed) := ⟨fun _ _ _ => Nat.le_trans⟩

theorem xor_left_cancel {s a b : Nat} (h : s ^^^ a = s ^^^ b) : a = b := by
  have h2 := congrArg (s ^^^ ·) h
  simpa [← Nat.xor_assoc] using h2

instance (seed : Nat) : IsAntisymm Nat (keyRel seed) :=
  ⟨fun _ _ h1 h2 => xor_left_cancel (Nat.le_antisymm h1 h2)⟩

/-- Eligibility of one node: a candidate that is neither existing nor
blacklisted and passes the liveness filter (`canPick` in the unit test). -/
def canPick (existing blacklist : List Nat) (alive : Nat → Bool) (n : Nat) : Bool :=
  !(existing.contains n) && !(blacklist.contains n) && alive n

/-- The eligible candidates in canonical (seed-keyed, duplicate-free) order. -/
def eligibleList (candidates existing blacklist : List Nat) (seed : Nat)
    (alive : Nat → Bool) : List Nat :=
  ((candidates.insertionSort (keyRel seed)).dedup).filter (canPick existing blacklist alive)

/-- Modelled from the spec: `RandomNodeSelector::select` (see the section
comment above). -/
def select (candidates existing blacklist graylist : List Nat)
    (required extras seed : Nat) (alive : Nat → Bool) : List Nat :=
  let elig := eligibleList candidates existing blacklist seed alive
  if elig.length < required then []
  else
    (elig.filter (fun n => !(graylist.contains n))
      ++ elig.filter (fun n => graylist.contains n)).take (required + extras)

/-- The model reproduces the in-tree `SourceSelectBasicTest` assertions (the
expectations are sets; we compare up to permutation). -/
theorem select_test_vectors :
    select [1, 2, 3, 4, 5] [1] [2] [3] 2 1 0 (fun _ => true) ~ [3, 4, 5] ∧
    select [1, 2, 3, 4, 5] [1] [2, 3] [] 2 1 0 (fun _ => true) ~ [4, 5] ∧
    select [1, 2, 3, 4, 5] [1, 4] [2, 3] [] 2 0 0 (fun _ => true) = [] := by
  refine ⟨by decide, by decide, by decide⟩

theorem mem_eligibleList {candidates existing blacklist : List Nat} {seed : Nat}
    {alive : Nat → Bool} {n : Nat} :
    n ∈ eligibleList candidates existing blacklist seed alive ↔
      n ∈ candidates ∧ canPick existing blacklist alive n = true := by
  unfold eligibleList
  rw [List.mem_filter, List.mem_dedup]
  constructor
  · rintro ⟨hmem, hpick⟩
    exact ⟨(List.perm_insertionSort (keyRel seed) candidates).mem_iff.mp hmem, hpick⟩
  · rintro ⟨hmem, hpick⟩
    exact ⟨(List.perm_insertionSort (keyRel seed) candidates).mem_iff.mpr hmem, hpick⟩

theorem eligibleList_nodup (candidates existing blacklist : List Nat) (seed : Nat)
    (alive : Nat → Bool) :
    (eligibleList candidates existing blacklist seed alive).Nodup :=
  (List.nodup_dedup _).filter _

/-- The graylist-last reordering of the eligible list is a permutation of it. -/
theorem select_partition_perm (graylist elig : List Nat) :
    (elig.filter (fun n => !(graylist.contains n))
      ++ elig.filter (fun n => graylist.contains n)) ~ elig := by
  have h := List.filter_append_perm (fun n => !(graylist.contains n)) elig
  refine List.Perm.trans ?_ h
  refine List.Perm.append (List.Perm.refl _) ?_
  have : (fun n => !(!(graylist.contains n))) = fun n => graylist.contains n := by
    funext n; simp
  rw [this]

/-- C3, confirmed (spec-modelled).  `select` returns either a duplicate-free
set of `required + k` nodes (`0 ≤ k ≤ extras`), all of them candidates that are
not existing, not blacklisted and alive — or the empty set whenever fewer than
`required` such eligible candidates exist. -/
theorem select_size_and_membership (candidates existing blacklist graylist : List Nat)
    (required extras seed : Nat) (alive : Nat → Bool) :
    ((eligibleList candidates existing blacklist seed alive).length < required →
      select candidates existing blacklist graylist required extras seed alive = []) ∧
    (required ≤ (eligibleList candidates existing blacklist seed alive).length →
      required ≤ (select candidates existing blacklist graylist required extras seed
          alive).length ∧
      (select candidates existing blacklist graylist required extras seed
          alive).length ≤ required + extras ∧
      (select candidates existing blacklist graylist required extras seed
          alive).Nodup ∧
      (∀ n ∈ select candidates existing blacklist graylist required extras seed alive,
        n ∈ candidates ∧ existing.contains n = false ∧ blacklist.contains n = false ∧
          alive n = true)) := by
  constructor
  · intro hlt
    unfold select
    rw [if_pos hlt]
  · intro hge
    unfold select
    rw [if_neg (by omega)]
    have hperm := select_partition_perm graylist
      (eligibleList candidates existing blacklist seed alive)
    have hlen : ((eligibleList candidates existing blacklist seed alive).filter
          (fun n => !(graylist.contains n)) ++
        (eligibleList candidates existing blacklist seed alive).filter
          (fun n => graylist.contains n)).length
        = (eligibleList candidates existing blacklist seed alive).length :=
      hperm.length_eq
    refine ⟨?_, ?_, ?_, ?_⟩
    · rw [List.length_take, hlen]
      omega
    · rw [List.length_take, hlen]
      omega
    · exact (hperm.nodup_iff.mpr
        (eligibleList_nodup candidates existing blacklist seed alive)).sublist
        (List.take_sublist _ _)
    · intro n hn
      have hmem : n ∈ eligibleList candidates existing blacklist seed alive :=
        hperm.mem_iff.mp (List.mem_of_mem_take hn)
      have := mem_eligibleList.mp hmem
      refine ⟨this.1, ?_, ?_, ?_⟩
      · have := this.2
        simp only [canPick, Bool.and_eq_true, Bool.not_eq_true'] at this
        exact this.1.1
      · have := this.2
        simp only [canPick, Bool.and_eq_true, Bool.not_eq_true'] at this
        exact this.1.2
      · have := this.2
        simp only [canPick, Bool.and_eq_true, Bool.not_eq_true'] at this
        exact this.2

/-- C3, witness: the guarantee evaluated at the first `SourceSelectBasicTest`
input (candidates `{1..5}`, existing `{1}`, blacklist `{2}`, graylist `{3}`,
`required = 2`, `extras = 1`). -/
theorem select_size_and_membership_witness :
    2 ≤ (select [1, 2, 3, 4, 5] [1] [2] [3] 2 1 0 (fun _ => true)).length ∧
    (select [1, 2, 3, 4, 5] [1] [2] [3] 2 1 0 (fun _ => true)).length ≤ 2 + 1 :=
  ⟨((select_size_and_membership [1, 2, 3, 4, 5] [1] [2] [3] 2 1 0
      (fun _ => true)).2 (by decide)).1,
   ((select_size_and_membership [1, 2, 3, 4, 5] [1] [2] [3] 2 1 0
      (fun _ => true)).2 (by decide)).2.1⟩

/-- C4, confirmed (spec-modelled).  For a fixed seed (and fixed existing /
blacklist / graylist / required / extras / filter), `select` yields exactly the
same result on every permutation (iteration order) of the candidate set. -/
theorem select_deterministic_perm (c c' existing blacklist graylist : List Nat)
    (required extras seed : Nat) (alive : Nat → Bool) (h : c ~ c') :
    select c existing blacklist graylist required extras seed alive
      = select c' existing blacklist graylist required extras seed alive := by
  have hsorted : c.insertionSort (keyRel seed) = c'.insertionSort (keyRel seed) :=
    List.eq_of_perm_of_sorted
      (((List.perm_insertionSort (keyRel seed) c).trans h).trans
        (List.perm_insertionSort (keyRel seed) c').symm)
      (List.sorted_insertionSort (keyRel seed) c)
      (List.sorted_insertionSort (keyRel seed) c')
  unfold select eligibleList
  rw [hsorted]

/-- C4, witness: the determinism theorem at a concrete permutation of
`[0,…,9]` with the test's arguments. -/
theorem select_deterministic_perm_witness :
    select [0, 1, 2, 3, 4, 5, 6, 7, 8, 9] [1] [2] [3] 2 1 99 (fun _ => true)
      = select [9, 3, 0, 5, 7, 1, 8, 2, 6, 4] [1] [2] [3] 2 1 99 (fun _ => true) :=
  select_deterministic_perm _ _ [1] [2] [3] 2 1 99 (fun _ => true) (by decide)

/-- C5, confirmed (spec-modelled).  If the selection picked any graylisted
node, then every eligible candidate that was not picked is itself graylisted:
graylisted candidates are only used once the non-graylisted eligible candidates
are exhausted. -/
theorem select_graylist_fallback (candidates existing blacklist graylist : List Nat)
    (required extras seed : Nat) (alive : Nat → Bool)
    (hg : ∃ g ∈ select candidates existing blacklist graylist required extras seed alive,
      g ∈ graylist) :
    ∀ n ∈ candidates, canPick existing blacklist alive n = true →
      n ∉ select candidates existing blacklist graylist required extras seed alive →
      n ∈ graylist := by
  obtain ⟨g, hgsel, hggray⟩ := hg
  intro n hncand hnpick hnsel
  by_contra hngray
  set elig := eligibleList candidates existing blacklist seed alive with helig
  set A := elig.filter (fun m => !(graylist.contains m)) with hA
  set B := elig.filter (fun m => graylist.contains m) with hB
  by_cases hlt : elig.length < required
  · unfold select at hgsel
    rw [← helig, if_pos hlt] at hgsel
    simp at hgsel
  · have hsel_eq : select candidates existing blacklist graylist required extras seed alive
        = (A ++ B).take (required + extras) := by
      unfold select
      rw [← helig, if_neg hlt]
    -- the picked graylisted node lives in the `B` part of the take
    have hgAB : g ∈ (A ++ B).take (required + extras) := by
      rw [← hsel_eq]; exact hgsel
    have hgnotA : g ∉ A := by
      intro hgA
      rw [hA, List.mem_filter] at hgA
      have hgA2 := hgA.2
      simp at hgA2
      exact hgA2 hggray
    -- so the take reaches past all of `A`, hence all of `A` was picked
    have htake := @List.take_append_eq_append_take Nat A B (required + extras)
    have hgB : g ∈ B.take (required + extras - A.length) := by
      rw [htake] at hgAB
      rcases List.mem_append.mp hgAB with hcase | hcase
      · exact absurd (List.mem_of_mem_take hcase) hgnotA
      · exact hcase
    have hpast : A.length < required + extras := by
      by_contra hle
      push_neg at hle
      have : required + extras - A.length = 0 := by omega
      rw [this, List.take_zero] at hgB
      simp at hgB
    have hAall : A.take (required + extras) = A :=
      List.take_of_length_le (by omega)
    -- `n` is eligible and not graylisted, so it is in `A`, hence picked
    have hnA : n ∈ A := by
      rw [hA, List.mem_filter]
      refine ⟨mem_eligibleList.mpr ⟨hncand, hnpick⟩, ?_⟩
      simp [hngray]
    apply hnsel
    rw [hsel_eq, htake, ← hAall] at *
    exact List.mem_append.mpr (Or.inl (by rw [hAall]; exact hnA))

/-- C5, witness: with candidates `{1,2}` all graylisted, `required = 1`,
`extras = 0`, the selection picks a graylisted node, and the eligible
unpicked node 2 is indeed graylisted. -/
theorem select_graylist_fallback_witness :
    (2 : Nat) ∈ ([1, 2] : List Nat) :=
  select_graylist_fallback [1, 2] [] [] [1, 2] 1 0 0 (fun _ => true)
    ⟨1, by decide, by decide⟩ 2 (by decide) (by decide) (by decide)

/-! ## Buffered writer (`BufferedWriterSingleLog.cpp`)

The per-log batcher is embedded as an event-step system.  The state carries the
`batches_` deque, the `blocked_appends_` queue, the deferred-flush counter, the
batch numbering (`next_batch_num_` / `next_batch_to_send_`) and, as observation
logs, the sequence of `appendBuffered` calls handed to the sink (`sent`), the
sequence of per-record callback invocations (`completed`, i.e. `onSuccess` /
`onFailureInternal`), and the total memory returned via `releaseMemory`.

Abstractions relative to the source: payloads are reduced to an identifier and
a size, and the blob size estimator to the sum of the payload sizes (the
estimator itself, `BufferedWriteCodec`, is not needed by the claims — only the
threshold comparisons are); blob construction (`construct_blob` →
`readyToSend`) runs synchronously, as the source does below the
background-thread threshold; the application's `onRetry` decision is an input
of the reply event.  Everything else — `appendImpl`, `flushMeMaybe`,
`flushBuildingBatch`/`sendBatch`/`readyToSend`/`appendBatch`, `onAppendReply`,
`unblockAppends`, `dropBlockedAppends`, `flushAll`, `reap` — follows the
source's control flow directly. -/

namespace BufferedWriter

inductive Mode where
  | INDEPENDENT | ONE_AT_A_TIME
deriving DecidableEq, Repr

inductive BatchState where
  | BUILDING | CONSTRUCTING_BLOB | READY_TO_SEND | INFLIGHT | RETRY_PENDING | FINISHED
deriving DecidableEq, Repr

/-- An append status: `OK` or a LogDevice error code (abstracted to a number). -/
inductive AppendStatus where
  | OK
  | E (code : Nat)
deriving DecidableEq, Repr

/-- One client record: an identifier and its payload size. -/
structure Append where
  id : Nat
  size : Nat
deriving DecidableEq, Repr

/-- One `append()` call hands over a chunk of records. -/
abbrev Chunk := List Append

structure Batch where
  num : Nat
  state : BatchState
  appends : List Append
  blobBytesTotal : Nat
  payloadMemoryBytesTotal : Nat
  retryCount : Nat
deriving DecidableEq, Repr

/-- One callback invocation for one record. -/
structure Outcome where
  app : Append
  status : AppendStatus
  redirect : Nat
deriving DecidableEq, Repr

/-- The `BufferedWriter::Options` the claims depend on.  `sizeTrigger = none`
and `retryCount = none` encode the source's negative (disabled / unlimited)
values. -/
structure Options where
  mode : Mode
  sizeTrigger : Option Nat
  retryCount : Option Nat
  maxPayloadSize : Nat
deriving DecidableEq, Repr

structure LogState where
  batches : List Batch
  blocked : List Chunk
  blockedFlushDeferred : Nat
  nextBatchNum : Nat
  nextBatchToSend : Nat
  sent : List (List Append)
  completed : List Outcome
  releasedMemory : Nat
deriving DecidableEq, Repr

def chunkBlob (c : Chunk) : Nat := (c.map Append.size).sum

def chunkMem (c : Chunk) : Nat := (c.map Append.size).sum

/-- Modify the back of the `batches_` deque. -/
def backModify (f : Batch → Batch) : List Batch → List Batch
  | [] => []
  | [b] => [f b]
  | b :: rest => b :: backModify f rest

/-- Modify the batch at a given index. -/
def modifyAt (i : Nat) (f : Batch → Batch) : List Batch → List Batch
  | [] => []
  | b :: r =>
    match i with
    | 0 => f b :: r
    | n + 1 => b :: modifyAt n f r

/-- `BufferedWriterSingleLog::haveBuildingBatch`. -/
def haveBuildingBatch (s : LogState) : Bool :=
  match s.batches.getLast? with
  | some b => b.state == BatchState.BUILDING
  | none => false

/-- `BufferedWriterSingleLog::appendBatch`: mark the batch INFLIGHT and hand
its records to the sink (`appendBuffered`). -/
def appendBatchAt (s : LogState) (i : Nat) : LogState :=
  match s.batches[i]? with
  | none => s
  | some b =>
    { s with
      batches := modifyAt i (fun x => { x with state := BatchState.INFLIGHT }) s.batches,
      sent := s.sent ++ [b.appends] }

/-- The send loop of `BufferedWriterSingleLog::readyToSend`: send batches in
`next_batch_to_send_` order while they are READY_TO_SEND. -/
def sendLoop : Nat → LogState → LogState
  | 0, s => s
  | fuel + 1, s =>
    match s.batches with
    | [] => s
    | front :: _ =>
      let index := s.nextBatchToSend - front.num
      if hidx : index < s.batches.length then
        if (s.batches.get ⟨index, hidx⟩).state == BatchState.READY_TO_SEND then
          sendLoop fuel
            (appendBatchAt { s with nextBatchToSend := s.nextBatchToSend + 1 } index)
        else s
      else s

/-- `readyToSend` on the (just-constructed) back batch. -/
def readyToSend (s : LogState) : LogState :=
  let s1 := { s with
    batches := backModify (fun b => { b with state := BatchState.READY_TO_SEND }) s.batches }
  sendLoop (s1.batches.length + 1) s1

/-- `flushBuildingBatch` = `sendBatch` on the back BUILDING batch: construct
the blob (synchronously) and send. -/
def flushBuildingBatch (s : LogState) : LogState :=
  readyToSend { s with
    batches := backModify (fun b => { b with state := BatchState.CONSTRUCTING_BLOB }) s.batches }

/-- `BufferedWriterSingleLog::flushMeMaybe`. -/
def flushMeMaybe (opts : Options) (defer : Bool) (s : LogState) : LogState :=
  match s.batches.getLast? with
  | none => s
  | some b =>
    if b.blobBytesTotal ≥ opts.maxPayloadSize then flushBuildingBatch s
    else if !defer
        && (match opts.sizeTrigger with
            | some t => b.payloadMemoryBytesTotal ≥ t
            | none => false) then
      flushBuildingBatch s
    else s

/-- `BufferedWriterSingleLog::appendImpl` (source lines 88–209).  Returns the
new state and whether the call succeeded (`true` ↔ `rv = 0`; `false` is the
one-at-a-time "batch already inflight" refusal that makes `append()` queue the
chunk). -/
def appendImpl (opts : Options) (chunk : Chunk) (defer : Bool) (s : LogState) :
    LogState × Bool :=
  -- grow the BUILDING batch's blob estimate; flush it first if the chunk
  -- would take the blob over the payload-size limit
  let s1 :=
    match s.batches.getLast? with
    | some b =>
      if b.state == BatchState.BUILDING then
        (if b.blobBytesTotal + chunkBlob chunk > opts.maxPayloadSize then
          flushBuildingBatch s
        else
          let grow := fun x =>
            { x with blobBytesTotal := b.blobBytesTotal + chunkBlob chunk }
          { s with batches := backModify grow s.batches })
      else s
    | none => s
  if haveBuildingBatch s1 = false
      ∧ opts.mode = Mode.ONE_AT_A_TIME ∧ s1.batches ≠ [] then
    -- one-at-a-time: a batch is already inflight, wait for it to finish
    (s1, false)
  else
    -- create a BUILDING batch if there is none
    let s2 :=
      if haveBuildingBatch s1 then s1
      else
        { s1 with
          batches := s1.batches ++
            [{ num := s1.nextBatchNum, state := BatchState.BUILDING, appends := [],
               blobBytesTotal := chunkBlob chunk, payloadMemoryBytesTotal := 0,
               retryCount := 0 }],
          nextBatchNum := s1.nextBatchNum + 1 }
    -- add the records to the BUILDING batch
    let s3 := { s2 with
      batches := backModify
        (fun b => { b with
          appends := b.appends ++ chunk,
          payloadMemoryBytesTotal := b.payloadMemoryBytesTotal + chunkMem chunk })
        s2.batches }
    (flushMeMaybe opts defer s3, true)

/-- `BufferedWriterSingleLog::append`: on refusal, buffer the chunk in
`blocked_appends_`. -/
def clientAppend (opts : Options) (chunk : Chunk) (s : LogState) : LogState :=
  match appendImpl opts chunk false s with
  | (s1, true) => s1
  | (s1, false) => { s1 with blocked := s1.blocked ++ [chunk] }

/-- `scheduleRetry`'s cap check: `options_.retry_count >= 0 &&
batch.retry_count >= options_.retry_count` refuses the retry. -/
def retryCapReached (opts : Options) (b : Batch) : Bool :=
  match opts.retryCount with
  | some cap => b.retryCount ≥ cap
  | none => false

/-- `BufferedWriterSingleLog::reap`: pop FINISHED batches from the front. -/
def dropFinished : List Batch → List Batch
  | [] => []
  | b :: r => if b.state == BatchState.FINISHED then dropFinished r else b :: r

/-- The loop of `BufferedWriterSingleLog::unblockAppends`: reissue blocked
chunks through `appendImpl` in queue order until one is refused; a pending
deferred flush (recorded by `flushAll` while a batch was inflight) turns into a
flush at the end. -/
def unblockLoop (opts : Options) : List Chunk → LogState → Bool →
    LogState × List Chunk × Bool
  | [], s, fae => (s, [], fae)
  | c :: rest, s, fae =>
    match appendImpl opts c (!rest.isEmpty) s with
    | (s1, false) => (s1, c :: rest, fae)
    | (s1, true) =>
      if s1.blockedFlushDeferred > 0 then
        unblockLoop opts rest
          { s1 with blockedFlushDeferred := s1.blockedFlushDeferred - 1 } true
      else
        unblockLoop opts rest s1 fae

/-- `BufferedWriterSingleLog::unblockAppends` (source lines 451–486). -/
def unblockAppends (opts : Options) (s : LogState) : LogState :=
  match unblockLoop opts s.blocked { s with blocked := [] } false with
  | (s1, rest, fae) =>
    let s2 := { s1 with blocked := rest }
    if fae && haveBuildingBatch s2 then flushBuildingBatch s2 else s2

/-- `BufferedWriterSingleLog::dropBlockedAppends` (source lines 488–512):
fail every blocked chunk with the batch's status and redirect, clear the
queue, and return the queued records' memory budget. -/
def dropBlockedAppends (st : AppendStatus) (redirect : Nat) (s : LogState) : LogState :=
  { s with
    completed := s.completed ++
      s.blocked.flatten.map (fun a => { app := a, status := st, redirect := redirect }),
    blocked := [],
    blockedFlushDeferred := 0,
    releasedMemory := s.releasedMemory + chunkMem s.blocked.flatten }

/-- `BufferedWriterSingleLog::onAppendReply` (source lines 392–428) for the
INFLIGHT batch numbered `bnum`: schedule a retry when allowed, otherwise invoke
the callbacks, finish the batch, reap, and — in one-at-a-time mode — unblock
the queued appends (success) or drop them (failure). -/
def onAppendReply (opts : Options) (bnum : Nat) (st : AppendStatus) (redirect : Nat)
    (allowRetry : Bool) (s : LogState) : LogState :=
  match s.batches.findIdx? (fun b => b.num == bnum && b.state == BatchState.INFLIGHT) with
  | none => s
  | some i =>
    match s.batches[i]? with
    | none => s
    | some b =>
      if st ≠ AppendStatus.OK ∧ retryCapReached opts b = false ∧ allowRetry = true then
        let toRetry := fun (x : Batch) =>
          { x with state := BatchState.RETRY_PENDING, retryCount := x.retryCount + 1 }
        { s with batches := modifyAt i toRetry s.batches }
      else
        -- invokeCallbacks, finishBatch, reap
        let finish := fun (x : Batch) =>
          { x with state := BatchState.FINISHED, appends := ([] : List Append) }
        let s1 := { s with
          completed := s.completed ++
            b.appends.map (fun a => ({ app := a, status := st, redirect := redirect } : Outcome)),
          batches := modifyAt i finish s.batches,
          releasedMemory := s.releasedMemory + b.payloadMemoryBytesTotal }
        let s2 := { s1 with batches := dropFinished s1.batches }
        if opts.mode == Mode.ONE_AT_A_TIME then
          (if st == AppendStatus.OK then unblockAppends opts s2
           else dropBlockedAppends st redirect s2)
        else s2

/-- The retry timer firing for a RETRY_PENDING batch: `sendBatch` skips
straight to `appendBatch`. -/
def retryFire (bnum : Nat) (s : LogState) : LogState :=
  match s.batches.findIdx? (fun b => b.num == bnum && b.state == BatchState.RETRY_PENDING) with
  | none => s
  | some i => appendBatchAt s i

/-- `BufferedWriterSingleLog::flushAll` (the time trigger): flush the BUILDING
batch if any, and record the blocked appends whose flush must be deferred
until the inflight batch returns. -/
def flushAll (s : LogState) : LogState :=
  let s1 := if haveBuildingBatch s then flushBuildingBatch s else s
  { s1 with blockedFlushDeferred := s1.blocked.length }

/-- External events driving the per-log state machine. -/
inductive Ev where
  | append (chunk : Chunk)
  | reply (bnum : Nat) (st : AppendStatus) (redirect : Nat) (allowRetry : Bool)
  | retryFire (bnum : Nat)
  | timeFlush
deriving DecidableEq, Repr

def step (opts : Options) (s : LogState) : Ev → LogState
  | .append chunk => clientAppend opts chunk s
  | .reply bnum st redirect allowRetry => onAppendReply opts bnum st redirect allowRetry s
  | .retryFire bnum => retryFire bnum s
  | .timeFlush => flushAll s

def initState : LogState :=
  { batches := [], blocked := [], blockedFlushDeferred := 0, nextBatchNum := 0,
    nextBatchToSend := 0, sent := [], completed := [], releasedMemory := 0 }

def runFrom (opts : Options) (s : LogState) (evs : List Ev) : LogState :=
  evs.foldl (step opts) s

def run (opts : Options) (evs : List Ev) : LogState :=
  runFrom opts initState evs

/-- The records of one event's append call (empty for non-append events). -/
def evApps : Ev → List Append
  | .append c => c
  | _ => []

/-- The client submission sequence of a trace. -/
def submittedOf (evs : List Ev) : List Append :=
  (evs.map evApps).flatten

/-- The records currently held in batches, in order. -/
def liveA (s : LogState) : List Append :=
  (s.batches.map Batch.appends).flatten

/-- The records currently queued in `blocked_appends_`, in order. -/
def blockedFlat (s : LogState) : List Append :=
  s.blocked.flatten

/-- The records of `completed`, in callback order. -/
def completedApps (s : LogState) : List Append :=
  s.completed.map Outcome.app

/-- The records the log has received: those acknowledged `E::OK`. -/
def delivered (s : LogState) : List Append :=
  (s.completed.filter (fun o => o.status == AppendStatus.OK)).map Outcome.app

/-- An event whose reply (if it is one) is `E::OK`. -/
def okEv : Ev → Bool
  | .reply _ st _ _ => st == AppendStatus.OK
  | _ => true

/-! ### Invariants of the one-at-a-time mode

`Inv1` captures the shape the `batches_` deque keeps in one-at-a-time mode: at
most one batch, never parked in the transient CONSTRUCTING_BLOB /
READY_TO_SEND / FINISHED states (blob construction is synchronous and `reap`
runs on completion), with the batch numbering consistent with
`next_batch_to_send_`. -/
def Inv1 (s : LogState) : Prop :=
  match s.batches with
  | [] => s.nextBatchToSend = s.nextBatchNum
  | [b] => b.num + 1 = s.nextBatchNum ∧
      ((b.state = BatchState.BUILDING ∧ s.nextBatchToSend = b.num) ∨
       ((b.state = BatchState.INFLIGHT ∨ b.state = BatchState.RETRY_PENDING) ∧
         s.nextBatchToSend = b.num + 1))
  | _ => False

/-- The full reachability invariant relative to the submission sequence `sub`:
`Inv1`, plus: a nonempty `blocked_appends_` queue implies the single batch is
in flight (INFLIGHT or awaiting retry), plus the ordering invariant — the
records already handed to callbacks, the records in batches and the queued
records, in that order, spell out exactly the client submission sequence. -/
def Good (sub : List Append) (s : LogState) : Prop :=
  Inv1 s ∧
  (s.blocked ≠ [] → ∃ b, s.batches = [b] ∧
    (b.state = BatchState.INFLIGHT ∨ b.state = BatchState.RETRY_PENDING)) ∧
  completedApps s ++ liveA s ++ blockedFlat s = sub

theorem flushBuildingBatch_spec (s : LogState) (b : Batch)
    (hb : s.batches = [b]) (hts : s.nextBatchToSend = b.num) :
    flushBuildingBatch s =
      { s with batches := [{ b with state := BatchState.INFLIGHT }],
               nextBatchToSend := b.num + 1,
               sent := s.sent ++ [b.appends] } := by
  simp only [flushBuildingBatch, readyToSend, hb, backModify, List.length_singleton]
  rw [sendLoop]
  simp only [hts, Nat.sub_self, List.length_singleton, Nat.lt_irrefl]
  rw [dif_pos (by omega : (0 : Nat) < 1)]
  simp only [List.get, beq_self_eq_true, if_pos rfl, appendBatchAt, List.getElem?_cons_zero,
    modifyAt]
  rw [sendLoop]
  simp

theorem flushMeMaybe_cases (opts : Options) (defer : Bool) (s : LogState) :
    flushMeMaybe opts defer s = s ∨ flushMeMaybe opts defer s = flushBuildingBatch s := by
  unfold flushMeMaybe
  cases s.batches.getLast? with
  | none => exact Or.inl rfl
  | some b =>
    dsimp only
    split_ifs with h1 h2
    · exact Or.inr rfl
    · exact Or.inr rfl
    · exact Or.inl rfl

/-- `appendImpl` under the one-at-a-time invariant: either the chunk is
accepted (`rv = 0`) and lands at the back of the live batch (which may get
flushed), or it is refused (`rv = -1`) with the state's single batch in flight
and nothing else changed. -/
theorem appendImpl_spec (opts : Options) (hm : opts.mode = Mode.ONE_AT_A_TIME)
    (chunk : Chunk) (defer : Bool) (s : LogState) (hinv : Inv1 s) :
    (∃ r, appendImpl opts chunk defer s = (r, true) ∧ Inv1 r ∧
        r.blocked = s.blocked ∧ r.completed = s.completed ∧
        r.releasedMemory = s.releasedMemory ∧
        liveA r = liveA s ++ chunk)
  ∨ (∃ r, appendImpl opts chunk defer s = (r, false) ∧ Inv1 r ∧
        r.blocked = s.blocked ∧ r.completed = s.completed ∧
        r.releasedMemory = s.releasedMemory ∧
        liveA r = liveA s ∧
        (∃ b, r.batches = [b] ∧
          (b.state = BatchState.INFLIGHT ∨ b.state = BatchState.RETRY_PENDING))) := by
  cases hbs : s.batches with
  | nil =>
    -- no batch: create a fresh BUILDING batch holding the chunk
    simp only [Inv1, hbs] at hinv
    refine Or.inl ?_
    have happ : appendImpl opts chunk defer s =
        (flushMeMaybe opts defer
          { s with
            batches := [{ num := s.nextBatchNum, state := BatchState.BUILDING,
                          appends := chunk, blobBytesTotal := chunkBlob chunk,
                          payloadMemoryBytesTotal := chunkMem chunk, retryCount := 0 }],
            nextBatchNum := s.nextBatchNum + 1 }, true) := by
      simp [appendImpl, hbs, haveBuildingBatch, backModify]
    rcases flushMeMaybe_cases opts defer
        { s with
          batches := [{ num := s.nextBatchNum, state := BatchState.BUILDING,
                        appends := chunk, blobBytesTotal := chunkBlob chunk,
                        payloadMemoryBytesTotal := chunkMem chunk, retryCount := 0 }],
          nextBatchNum := s.nextBatchNum + 1 } with hf | hf
    · refine ⟨_, by rw [happ, hf], ?_, ?_, ?_, ?_, ?_⟩
      · simp [Inv1, hinv]
      · rfl
      · rfl
      · rfl
      · simp [liveA, hbs]
    · rw [flushBuildingBatch_spec _
          { num := s.nextBatchNum, state := BatchState.BUILDING, appends := chunk,
            blobBytesTotal := chunkBlob chunk, payloadMemoryBytesTotal := chunkMem chunk,
            retryCount := 0 } rfl (by simpa using hinv)] at hf
      refine ⟨_, by rw [happ, hf], ?_, ?_, ?_, ?_, ?_⟩
      · simp [Inv1]
      · rfl
      · rfl
      · rfl
      · simp [liveA, hbs]
  | cons b rest =>
    cases rest with
    | cons b2 rest2 => simp [Inv1, hbs] at hinv
    | nil =>
    simp only [Inv1, hbs] at hinv
    obtain ⟨hnum, hdisj⟩ := hinv
    rcases hdisj with ⟨hbuild, hts⟩ | ⟨hfl, hts⟩
    · -- the single batch is BUILDING
      by_cases hover : b.blobBytesTotal + chunkBlob chunk > opts.maxPayloadSize
      · -- chunk would overflow the blob: flush the building batch, refuse
        refine Or.inr ?_
        have hflush := flushBuildingBatch_spec s b hbs hts
        have happ : appendImpl opts chunk defer s =
            ({ s with batches := [{ b with state := BatchState.INFLIGHT }],
                      nextBatchToSend := b.num + 1,
                      sent := s.sent ++ [b.appends] }, false) := by
          simp [appendImpl, hbs, hbuild, hover, hflush, haveBuildingBatch, hm]
        refine ⟨_, happ, ?_, rfl, rfl, rfl, ?_, ?_⟩
        · simp [Inv1, hnum]
        · simp [liveA, hbs]
        · exact ⟨_, rfl, Or.inl rfl⟩
      · -- the chunk fits: grow the building batch, maybe flush
        refine Or.inl ?_
        have happ : appendImpl opts chunk defer s =
            (flushMeMaybe opts defer
              { s with
                batches := [{ b with
                  appends := b.appends ++ chunk,
                  blobBytesTotal := b.blobBytesTotal + chunkBlob chunk,
                  payloadMemoryBytesTotal := b.payloadMemoryBytesTotal + chunkMem chunk }] },
             true) := by
          simp [appendImpl, hbs, hbuild, hover, haveBuildingBatch, backModify]
        rcases flushMeMaybe_cases opts defer
            { s with
              batches := [{ b with
                appends := b.appends ++ chunk,
                blobBytesTotal := b.blobBytesTotal + chunkBlob chunk,
                payloadMemoryBytesTotal := b.payloadMemoryBytesTotal + chunkMem chunk }] }
            with hf | hf
        · refine ⟨_, by rw [happ, hf], ?_, ?_, ?_, ?_, ?_⟩
          · simp [Inv1, hnum, hbuild, hts]
          · rfl
          · rfl
          · rfl
          · simp [liveA, hbs]
        · rw [flushBuildingBatch_spec _
              { b with
                appends := b.appends ++ chunk,
                blobBytesTotal := b.blobBytesTotal + chunkBlob chunk,
                payloadMemoryBytesTotal := b.payloadMemoryBytesTotal + chunkMem chunk }
              rfl (by simpa using hts)] at hf
          refine ⟨_, by rw [happ, hf], ?_, ?_, ?_, ?_, ?_⟩
          · simp [Inv1, hnum]
          · rfl
          · rfl
          · rfl
          · simp [liveA, hbs]
    · -- the single batch is INFLIGHT or RETRY_PENDING: refuse and queue
      refine Or.inr ?_
      have hnotb : (b.state == BatchState.BUILDING) = false := by
        rcases hfl with h | h <;> simp [h]
      have happ : appendImpl opts chunk defer s = (s, false) := by
        simp [appendImpl, hbs, hnotb, haveBuildingBatch, hm]
      refine ⟨s, happ, ?_, rfl, rfl, rfl, rfl, ⟨b, hbs, hfl⟩⟩
      simp only [Inv1, hbs]
      exact ⟨hnum, Or.inr ⟨hfl, hts⟩⟩

theorem Inv1_blockedFlushDeferred (s : LogState) (n : Nat) :
    Inv1 { s with blockedFlushDeferred := n } ↔ Inv1 s :=
  Iff.rfl

/-- The unblock loop reissues a prefix of the queue, in order, into the live
batch; when it stops early the remaining chunks stay queued behind an
in-flight batch. -/
theorem unblockLoop_spec (opts : Options) (hm : opts.mode = Mode.ONE_AT_A_TIME)
    (q : List Chunk) : ∀ (s : LogState) (fae : Bool), Inv1 s →
    ∃ s1 rest fae1 k,
      unblockLoop opts q s fae = (s1, rest, fae1) ∧
      Inv1 s1 ∧ s1.blocked = s.blocked ∧ s1.completed = s.completed ∧
      s1.releasedMemory = s.releasedMemory ∧
      rest = q.drop k ∧ liveA s1 = liveA s ++ (q.take k).flatten ∧
      (rest ≠ [] → ∃ b, s1.batches = [b] ∧
        (b.state = BatchState.INFLIGHT ∨ b.state = BatchState.RETRY_PENDING)) := by
  induction q with
  | nil =>
    intro s fae hinv
    exact ⟨s, [], fae, 0, rfl, hinv, rfl, rfl, rfl, rfl, by simp, by simp⟩
  | cons c rest ih =>
    intro s fae hinv
    rcases appendImpl_spec opts hm c (!rest.isEmpty) s hinv with
      ⟨r, heq, hinv2, hbl, hco, hrm, hlive⟩ | ⟨r, heq, hinv2, hbl, hco, hrm, hlive, hbatch⟩
    · by_cases hfd : r.blockedFlushDeferred > 0
      · obtain ⟨s1, rest1, fae1, k, hloop, hinv3, hbl3, hco3, hrm3, hrest, hlive3, himp⟩ :=
          ih { r with blockedFlushDeferred := r.blockedFlushDeferred - 1 } true
            ((Inv1_blockedFlushDeferred r _).mpr hinv2)
        refine ⟨s1, rest1, fae1, k + 1, ?_, hinv3, ?_, ?_, ?_, ?_, ?_, himp⟩
        · rw [unblockLoop, heq]
          simp only [if_pos hfd]
          exact hloop
        · rw [hbl3]; exact hbl
        · rw [hco3]; exact hco
        · rw [hrm3]; exact hrm
        · simpa using hrest
        · rw [hlive3]
          show liveA r ++ (rest.take k).flatten = liveA s ++ ((c :: rest).take (k + 1)).flatten
          rw [hlive]
          simp
      · obtain ⟨s1, rest1, fae1, k, hloop, hinv3, hbl3, hco3, hrm3, hrest, hlive3, himp⟩ :=
          ih r fae hinv2
        refine ⟨s1, rest1, fae1, k + 1, ?_, hinv3, ?_, ?_, ?_, ?_, ?_, himp⟩
        · rw [unblockLoop, heq]
          simp only [if_neg hfd]
          exact hloop
        · rw [hbl3]; exact hbl
        · rw [hco3]; exact hco
        · rw [hrm3]; exact hrm
        · simpa using hrest
        · rw [hlive3, hlive]
          simp
    · refine ⟨r, c :: rest, fae, 0, ?_, hinv2, hbl, hco, hrm, by simp, by simp [hlive],
        fun _ => hbatch⟩
      rw [unblockLoop, heq]

/-- `unblockAppends` under the invariant: a prefix of the blocked queue moves,
in order, into the live batch; any chunks left queued sit behind an in-flight
batch. -/
theorem unblockAppends_spec (opts : Options) (hm : opts.mode = Mode.ONE_AT_A_TIME)
    (s : LogState) (hinv : Inv1 s) :
    ∃ r k, unblockAppends opts s = r ∧ Inv1 r ∧
      r.completed = s.completed ∧ r.releasedMemory = s.releasedMemory ∧
      r.blocked = s.blocked.drop k ∧
      liveA r = liveA s ++ (s.blocked.take k).flatten ∧
      (r.blocked ≠ [] → ∃ b, r.batches = [b] ∧
        (b.state = BatchState.INFLIGHT ∨ b.state = BatchState.RETRY_PENDING)) := by
  obtain ⟨s1, rest, fae1, k, hloop, hinv1, hbl1, hco1, hrm1, hrest, hlive1, himp⟩ :=
    unblockLoop_spec opts hm s.blocked { s with blocked := [] } false hinv
  by_cases hflush : (fae1 && haveBuildingBatch { s1 with blocked := rest }) = true
  · -- a deferred flush fires at the end: only possible with everything unblocked
    have hbuild : haveBuildingBatch s1 = true := by
      have h2 := hflush
      simp only [Bool.and_eq_true] at h2
      exact h2.2
    -- a BUILDING batch excludes the in-flight shape, so the queue fully drained
    have hrestnil : rest = [] := by
      by_contra hne
      obtain ⟨b, hb, hdisj⟩ := himp hne
      rw [haveBuildingBatch, hb] at hbuild
      simp at hbuild
      rcases hdisj with h | h <;> simp [h] at hbuild
    subst hrestnil
    -- flushBuildingBatch on the BUILDING singleton
    cases hbs1 : s1.batches with
    | nil => rw [haveBuildingBatch, hbs1] at hbuild; simp at hbuild
    | cons b tl =>
      cases tl with
      | cons b2 tl2 =>
        have h2 := hinv1
        simp [Inv1, hbs1] at h2
      | nil =>
        have hbst : b.state = BatchState.BUILDING := by
          rw [haveBuildingBatch, hbs1] at hbuild
          simpa using hbuild
        have hts : s1.nextBatchToSend = b.num := by
          have h2 := hinv1
          simp only [Inv1, hbs1] at h2
          rcases h2.2 with ⟨_, h⟩ | ⟨hst, _⟩
          · exact h
          · rcases hst with h | h <;> rw [hbst] at h <;> simp at h
        have hnum : b.num + 1 = s1.nextBatchNum := by
          have h2 := hinv1
          simp only [Inv1, hbs1] at h2
          exact h2.1
        have hspec := flushBuildingBatch_spec { s1 with blocked := [] } b hbs1 hts
        set R : LogState :=
          { s1 with
            blocked := [],
            batches := [{ b with state := BatchState.INFLIGHT }],
            nextBatchToSend := b.num + 1,
            sent := s1.sent ++ [b.appends] } with hR
        refine ⟨R, k, ?_, ?_, hco1, hrm1, ?_, ?_, ?_⟩
        · rw [unblockAppends, hloop]
          dsimp only
          rw [if_pos hflush]
          exact hspec
        · simp [hR, Inv1, hnum]
        · exact hrest
        · have h1 : liveA R = b.appends := by
            simp [hR, liveA]
          have h3 : liveA s1 = b.appends := by
            simp [liveA, hbs1]
          rw [h1, ← h3]
          exact hlive1
        · intro hne
          simp at hne
  · refine ⟨{ s1 with blocked := rest }, k, ?_, ?_, hco1, hrm1, hrest, ?_, ?_⟩
    · rw [unblockAppends, hloop]
      dsimp only
      rw [if_neg ?_]
      exact fun h => hflush h
    · exact hinv1
    · show liveA s1 = _
      exact hlive1
    · intro hne
      exact himp (by simpa using hne)

theorem map_outcome_app (st : AppendStatus) (rd : Nat) (l : List Append) :
    l.map (Outcome.app ∘ fun a => ({ app := a, status := st, redirect := rd } : Outcome))
      = l := by
  induction l with
  | nil => rfl
  | cons x xs ih => simp [Function.comp] at ih ⊢; exact ih

theorem map_map_outcome_app (st : AppendStatus) (rd : Nat) (q : List Chunk) :
    q.map (List.map (Outcome.app ∘ fun a => ({ app := a, status := st, redirect := rd } :
      Outcome))) = q := by
  induction q with
  | nil => rfl
  | cons c cs ih => simp [map_outcome_app, ih]

/-- Every event preserves the reachability invariant, extending the submission
sequence by the records of the event's append call (if any). -/
theorem step_good (opts : Options) (hm : opts.mode = Mode.ONE_AT_A_TIME)
    (s : LogState) (sub : List Append) (e : Ev) (hg : Good sub s) :
    Good (sub ++ evApps e) (step opts s e) := by
  obtain ⟨hinv, hq, hord⟩ := hg
  cases e with
  | append chunk =>
    show Good (sub ++ chunk) (clientAppend opts chunk s)
    rcases appendImpl_spec opts hm chunk false s hinv with
      ⟨r, heq, hinv2, hbl, hco, hrm, hlive⟩ | ⟨r, heq, hinv2, hbl, hco, hrm, hlive, hbatch⟩
    · -- accepted: the chunk joined the live batch; queue must have been empty
      have hbnil : s.blocked = [] := by
        by_contra hne
        obtain ⟨b, hb, hdisj⟩ := hq hne
        have hnotb : (b.state == BatchState.BUILDING) = false := by
          rcases hdisj with h | h <;> simp [h]
        have happ2 : appendImpl opts chunk false s = (s, false) := by
          simp [appendImpl, hb, hnotb, haveBuildingBatch, hm]
        rw [heq] at happ2
        simp at happ2
      have hstep : clientAppend opts chunk s = r := by
        unfold clientAppend
        rw [heq]
      rw [hstep]
      refine ⟨hinv2, ?_, ?_⟩
      · intro hne
        rw [hbl, hbnil] at hne
        simp at hne
      · show completedApps r ++ liveA r ++ blockedFlat r = sub ++ chunk
        rw [hlive]
        have hc2 : completedApps r = completedApps s := by
          simp [completedApps, hco]
        have hb2 : blockedFlat r = blockedFlat s := by
          simp [blockedFlat, hbl]
        rw [hc2, hb2]
        rw [← hord]
        simp [blockedFlat, hbnil]
    · -- refused: the chunk is queued behind the in-flight batch
      have hstep : clientAppend opts chunk s = { r with blocked := r.blocked ++ [chunk] } := by
        unfold clientAppend
        rw [heq]
      rw [hstep]
      refine ⟨hinv2, ?_, ?_⟩
      · intro _
        exact hbatch
      · show completedApps r ++ liveA r ++ (r.blocked ++ [chunk]).flatten = sub ++ chunk
        have hc2 : completedApps r = completedApps s := by
          simp [completedApps, hco]
        rw [hc2, hlive, hbl, ← hord]
        simp [blockedFlat]
  | reply bnum st rd allow =>
    show Good (sub ++ []) (onAppendReply opts bnum st rd allow s)
    rw [List.append_nil]
    cases hbs : s.batches with
    | nil =>
      have hstep : onAppendReply opts bnum st rd allow s = s := by
        simp [onAppendReply, hbs]
      rw [hstep]
      exact ⟨hinv, hq, hord⟩
    | cons b rest =>
      cases rest with
      | cons b2 r2 =>
        have h2 := hinv
        simp [Inv1, hbs] at h2
      | nil =>
        have h2 := hinv
        simp only [Inv1, hbs] at h2
        obtain ⟨hnum, hdisj⟩ := h2
        by_cases hpred : (b.num == bnum && b.state == BatchState.INFLIGHT) = true
        · obtain ⟨hbnum, hbst⟩ : b.num = bnum ∧ b.state = BatchState.INFLIGHT := by
            simpa using hpred
          have hts : s.nextBatchToSend = b.num + 1 := by
            rcases hdisj with ⟨h, _⟩ | ⟨_, h⟩
            · rw [hbst] at h; simp at h
            · exact h
          have hfind : s.batches.findIdx?
              (fun x => x.num == bnum && x.state == BatchState.INFLIGHT) = some 0 := by
            simp [hbs, List.findIdx?_cons, hpred]
          by_cases hretry : st ≠ AppendStatus.OK ∧ retryCapReached opts b = false ∧
              allow = true
          · -- a retry is scheduled: the batch goes RETRY_PENDING
            have hstep : onAppendReply opts bnum st rd allow s =
                { s with batches :=
                    [{ b with state := BatchState.RETRY_PENDING, retryCount := b.retryCount + 1 }] } := by
              simp only [onAppendReply, hbs]
              simp [hbnum, hbst, hretry.1, hretry.2.1, hretry.2.2, modifyAt]
            rw [hstep]
            refine ⟨?_, ?_, ?_⟩
            · simp [Inv1, hnum, hts]
            · intro _
              exact ⟨_, rfl, Or.inr rfl⟩
            · have hlv : liveA ({ s with batches :=
                  [{ b with state := BatchState.RETRY_PENDING, retryCount := b.retryCount + 1 }] } :
                    LogState) = liveA s := by
                simp [liveA, hbs]
              show completedApps s ++ _ ++ blockedFlat s = sub
              rw [hlv]
              exact hord
          · -- the batch completes: callbacks, finish, reap
            have hstep : onAppendReply opts bnum st rd allow s =
                (if opts.mode == Mode.ONE_AT_A_TIME then
                  (if st == AppendStatus.OK then
                    unblockAppends opts
                      { s with
                        completed := s.completed ++ b.appends.map
                          (fun a => ({ app := a, status := st, redirect := rd } : Outcome)),
                        batches := [],
                        releasedMemory := s.releasedMemory + b.payloadMemoryBytesTotal }
                   else
                    dropBlockedAppends st rd
                      { s with
                        completed := s.completed ++ b.appends.map
                          (fun a => ({ app := a, status := st, redirect := rd } : Outcome)),
                        batches := [],
                        releasedMemory := s.releasedMemory + b.payloadMemoryBytesTotal })
                 else
                  { s with
                    completed := s.completed ++ b.appends.map
                      (fun a => ({ app := a, status := st, redirect := rd } : Outcome)),
                    batches := [],
                    releasedMemory := s.releasedMemory + b.payloadMemoryBytesTotal }) := by
              simp only [onAppendReply, hbs]
              simp [hbnum, hbst, hretry, modifyAt, dropFinished]
            rw [hstep]
            rw [if_pos (by simp [hm])]
            have hinvS2 : Inv1 ({ s with
                completed := s.completed ++ b.appends.map
                  (fun a => ({ app := a, status := st, redirect := rd } : Outcome)),
                batches := [],
                releasedMemory := s.releasedMemory + b.payloadMemoryBytesTotal } :
                  LogState) := by
              simp [Inv1, hts, ← hnum]
            by_cases hok : st = AppendStatus.OK
            · rw [if_pos (by simp [hok])]
              obtain ⟨r, k, hstep2, hinv3, hco3, hrm3, hbl3, hlive3, himp3⟩ :=
                unblockAppends_spec opts hm _ hinvS2
              rw [hstep2]
              refine ⟨hinv3, himp3, ?_⟩
              show completedApps r ++ liveA r ++ blockedFlat r = sub
              have hc : completedApps r = completedApps s ++ b.appends := by
                rw [completedApps, hco3]
                simp [completedApps, map_outcome_app]
              have hlive_s : liveA s = b.appends := by simp [liveA, hbs]
              rw [hlive_s] at hord
              rw [hc, hlive3, blockedFlat, hbl3, ← hord]
              simp [liveA, blockedFlat]
              rw [← List.flatten_append, List.take_append_drop]
            · rw [if_neg (by simp [hok])]
              refine ⟨?_, ?_, ?_⟩
              · simp [dropBlockedAppends, Inv1, hts, ← hnum]
              · intro hne
                simp [dropBlockedAppends] at hne
              · have hlive_s : liveA s = b.appends := by simp [liveA, hbs]
                rw [hlive_s] at hord
                show completedApps _ ++ liveA _ ++ blockedFlat _ = sub
                simp only [dropBlockedAppends, completedApps, liveA, blockedFlat]
                simp only [List.map_append, List.map_map]
                rw [← hord]
                simp [completedApps, liveA, blockedFlat, map_outcome_app, map_map_outcome_app]
        · -- no INFLIGHT batch matches: the reply is a no-op
          have hstep : onAppendReply opts bnum st rd allow s = s := by
            simp only [onAppendReply, hbs]
            simp [List.findIdx?_cons, hpred]
          rw [hstep]
          exact ⟨hinv, hq, hord⟩
  | retryFire bnum =>
    show Good (sub ++ []) (retryFire bnum s)
    rw [List.append_nil]
    cases hbs : s.batches with
    | nil =>
      have hstep : retryFire bnum s = s := by
        simp [retryFire, hbs]
      rw [hstep]
      exact ⟨hinv, hq, hord⟩
    | cons b rest =>
      cases rest with
      | cons b2 r2 =>
        have h2 := hinv
        simp [Inv1, hbs] at h2
      | nil =>
        have h2 := hinv
        simp only [Inv1, hbs] at h2
        obtain ⟨hnum, hdisj⟩ := h2
        by_cases hpred : (b.num == bnum && b.state == BatchState.RETRY_PENDING) = true
        · obtain ⟨hbnum, hbst⟩ : b.num = bnum ∧ b.state = BatchState.RETRY_PENDING := by
            simpa using hpred
          have hts : s.nextBatchToSend = b.num + 1 := by
            rcases hdisj with ⟨h, _⟩ | ⟨_, h⟩
            · rw [hbst] at h; simp at h
            · exact h
          have hstep : retryFire bnum s =
              { s with
                batches := [{ b with state := BatchState.INFLIGHT }],
                sent := s.sent ++ [b.appends] } := by
            simp only [retryFire, hbs]
            simp [List.findIdx?_cons, hpred, appendBatchAt, hbs, modifyAt]
          rw [hstep]
          refine ⟨?_, ?_, ?_⟩
          · simp [Inv1, hnum, hts]
          · intro _
            exact ⟨_, rfl, Or.inl rfl⟩
          · have hlv : liveA ({ s with
                batches := [{ b with state := BatchState.INFLIGHT }],
                sent := s.sent ++ [b.appends] } : LogState) = liveA s := by
              simp [liveA, hbs]
            show completedApps s ++ _ ++ blockedFlat s = sub
            rw [hlv]
            exact hord
        · have hstep : retryFire bnum s = s := by
            simp only [retryFire, hbs]
            simp [List.findIdx?_cons, hpred]
          rw [hstep]
          exact ⟨hinv, hq, hord⟩
  | timeFlush =>
    show Good (sub ++ []) (flushAll s)
    rw [List.append_nil]
    by_cases hbuild : haveBuildingBatch s = true
    · cases hbs : s.batches with
      | nil => rw [haveBuildingBatch, hbs] at hbuild; simp at hbuild
      | cons b rest =>
        cases rest with
        | cons b2 r2 =>
          have h2 := hinv
          simp [Inv1, hbs] at h2
        | nil =>
          have hbst : b.state = BatchState.BUILDING := by
            rw [haveBuildingBatch, hbs] at hbuild
            simpa using hbuild
          have h2 := hinv
          simp only [Inv1, hbs] at h2
          obtain ⟨hnum, hdisj⟩ := h2
          have hts : s.nextBatchToSend = b.num := by
            rcases hdisj with ⟨_, h⟩ | ⟨hst, _⟩
            · exact h
            · rcases hst with h | h <;> rw [hbst] at h <;> simp at h
          have hbnil : s.blocked = [] := by
            by_contra hne
            obtain ⟨b2, hb2, hdisj2⟩ := hq hne
            rw [hbs] at hb2
            injection hb2 with hb2a _
            rcases hdisj2 with h | h <;> rw [← hb2a, hbst] at h <;> simp at h
          have hspec := flushBuildingBatch_spec s b hbs hts
          have hstep : flushAll s =
              { s with
                batches := [{ b with state := BatchState.INFLIGHT }],
                nextBatchToSend := b.num + 1,
                sent := s.sent ++ [b.appends],
                blockedFlushDeferred := s.blocked.length } := by
            unfold flushAll
            rw [if_pos hbuild, hspec]
          rw [hstep]
          refine ⟨?_, ?_, ?_⟩
          · simp [Inv1, hnum]
          · intro hne
            have hne2 : s.blocked ≠ [] := hne
            rw [hbnil] at hne2
            simp at hne2
          · have hlv : liveA ({ s with
                batches := [{ b with state := BatchState.INFLIGHT }],
                nextBatchToSend := b.num + 1, sent := s.sent ++ [b.appends],
                blockedFlushDeferred := s.blocked.length } : LogState) = liveA s := by
              simp [liveA, hbs]
            show completedApps s ++ _ ++ blockedFlat s = sub
            rw [hlv]
            exact hord
    · have hstep : flushAll s = { s with blockedFlushDeferred := s.blocked.length } := by
        unfold flushAll
        rw [if_neg hbuild]
      rw [hstep]
      exact ⟨hinv, hq, hord⟩

theorem runFrom_good (opts : Options) (hm : opts.mode = Mode.ONE_AT_A_TIME) :
    ∀ (evs : List Ev) (s : LogState) (sub : List Append), Good sub s →
      Good (sub ++ submittedOf evs) (runFrom opts s evs) := by
  intro evs
  induction evs with
  | nil =>
    intro s sub hg
    simpa [runFrom, submittedOf] using hg
  | cons e rest ih =>
    intro s sub hg
    have h1 := step_good opts hm s sub e hg
    have h2 := ih (step opts s e) (sub ++ evApps e) h1
    have h3 : runFrom opts s (e :: rest) = runFrom opts (step opts s e) rest := rfl
    rw [h3]
    have h4 : submittedOf (e :: rest) = evApps e ++ submittedOf rest := by
      simp [submittedOf]
    rw [h4, ← List.append_assoc]
    exact h2

theorem good_init : Good [] initState := by
  refine ⟨?_, ?_, ?_⟩
  · simp [Inv1, initState]
  · intro hne
    simp [initState] at hne
  · simp [completedApps, liveA, blockedFlat, initState]

/-- Every reachable state of the one-at-a-time machine satisfies the
invariant relative to the trace's submission sequence. -/
theorem run_good (opts : Options) (hm : opts.mode = Mode.ONE_AT_A_TIME)
    (evs : List Ev) : Good (submittedOf evs) (run opts evs) := by
  have h := runFrom_good opts hm evs initState [] good_init
  simpa [run] using h

/-! ### General frame lemmas (all modes)

These track, for every operation, how `completed`, `blocked`, the live records
and the `sent` log can change, without using the one-at-a-time invariant.  They
power the "queued appends are never sent after the drop" half of the
failure-path claim and the callback-status accounting. -/

/-- Operations that move no records: callbacks, queue and live records
unchanged; anything newly sent was already live. -/
def Frame0 (s s' : LogState) : Prop :=
  s'.completed = s.completed ∧ s'.blocked = s.blocked ∧ liveA s' = liveA s ∧
  ∃ ns, s'.sent = s.sent ++ ns ∧ ∀ a, a ∈ ns.flatten → a ∈ liveA s

theorem frame0_id (s : LogState) : Frame0 s s :=
  ⟨rfl, rfl, rfl, [], by simp, by simp⟩

theorem frame0_trans {s t u : LogState} (h1 : Frame0 s t) (h2 : Frame0 t u) :
    Frame0 s u := by
  obtain ⟨hc1, hb1, hl1, ns1, hs1, hm1⟩ := h1
  obtain ⟨hc2, hb2, hl2, ns2, hs2, hm2⟩ := h2
  refine ⟨hc2.trans hc1, hb2.trans hb1, hl2.trans hl1, ns1 ++ ns2, ?_, ?_⟩
  · rw [hs2, hs1, List.append_assoc]
  · intro a ha
    rw [List.flatten_append] at ha
    rcases List.mem_append.mp ha with h | h
    · exact hm1 a h
    · exact hl1 ▸ hm2 a h

theorem liveB_modifyAt_eq (f : Batch → Batch) (h : ∀ b, (f b).appends = b.appends) :
    ∀ (i : Nat) (bs : List Batch),
      ((modifyAt i f bs).map Batch.appends).flatten = (bs.map Batch.appends).flatten := by
  intro i bs
  induction bs generalizing i with
  | nil => simp [modifyAt]
  | cons b rest ih =>
    cases i with
    | zero => simp [modifyAt, h]
    | succ n => simp [modifyAt, ih]

theorem liveB_backModify_eq (f : Batch → Batch) (h : ∀ b, (f b).appends = b.appends) :
    ∀ bs : List Batch,
      ((backModify f bs).map Batch.appends).flatten = (bs.map Batch.appends).flatten := by
  intro bs
  induction bs with
  | nil => rfl
  | cons b rest ih =>
    cases rest with
    | nil => simp [backModify, h]
    | cons b2 rest2 =>
      show ((b :: backModify f (b2 :: rest2)).map Batch.appends).flatten = _
      simp only [List.map_cons, List.flatten_cons] at ih ⊢
      rw [ih]

theorem mem_liveB_of_getElem {bs : List Batch} {i : Nat} {b : Batch}
    (hg : bs[i]? = some b) : ∀ a ∈ b.appends, a ∈ (bs.map Batch.appends).flatten := by
  intro a ha
  have hb : b ∈ bs := by
    have := List.getElem?_eq_some_iff.mp hg
    obtain ⟨hlt, heq⟩ := this
    exact heq ▸ List.getElem_mem hlt
  rw [List.mem_flatten]
  exact ⟨b.appends, List.mem_map_of_mem Batch.appends hb, ha⟩

theorem frame0_appendBatchAt (s : LogState) (i : Nat) : Frame0 s (appendBatchAt s i) := by
  unfold appendBatchAt
  cases hg : s.batches[i]? with
  | none => exact frame0_id s
  | some b =>
    dsimp only
    refine ⟨rfl, rfl, ?_, [b.appends], rfl, ?_⟩
    · exact liveB_modifyAt_eq (fun x => { x with state := BatchState.INFLIGHT })
        (fun _ => rfl) i s.batches
    · intro a ha
      simp only [List.flatten, List.append_nil] at ha
      exact mem_liveB_of_getElem hg a (by simpa using ha)

theorem frame0_sendLoop (n : Nat) : ∀ s, Frame0 s (sendLoop n s) := by
  induction n with
  | zero => intro s; exact frame0_id s
  | succ n ih =>
    intro s
    rw [sendLoop]
    cases hbs : s.batches with
    | nil => exact frame0_id s
    | cons front rest =>
      dsimp only
      split
      · split
        · rw [← hbs]
          refine frame0_trans (frame0_trans ?_
            (frame0_appendBatchAt { s with nextBatchToSend := s.nextBatchToSend + 1 }
              (s.nextBatchToSend - front.num))) (ih _)
          exact ⟨rfl, rfl, rfl, [], by simp, by simp⟩
        · exact frame0_id s
      · exact frame0_id s

theorem frame0_flushBuildingBatch (s : LogState) : Frame0 s (flushBuildingBatch s) := by
  unfold flushBuildingBatch readyToSend
  have hmid : Frame0 s { s with
      batches := backModify (fun b => { b with state := BatchState.READY_TO_SEND })
        (backModify (fun b => { b with state := BatchState.CONSTRUCTING_BLOB }) s.batches) } := by
    refine ⟨rfl, rfl, ?_, [], by simp, by simp⟩
    have e1 := liveB_backModify_eq (fun b => { b with state := BatchState.READY_TO_SEND })
      (fun _ => rfl)
      (backModify (fun b => { b with state := BatchState.CONSTRUCTING_BLOB }) s.batches)
    have e2 := liveB_backModify_eq (fun b => { b with state := BatchState.CONSTRUCTING_BLOB })
      (fun _ => rfl) s.batches
    exact e1.trans e2
  exact frame0_trans hmid (frame0_sendLoop _ _)

theorem frame0_flushMeMaybe (opts : Options) (defer : Bool) (s : LogState) :
    Frame0 s (flushMeMaybe opts defer s) := by
  rcases flushMeMaybe_cases opts defer s with h | h <;> rw [h]
  · exact frame0_id s
  · exact frame0_flushBuildingBatch s

/-- Operations that may move the records of `extra` into the live batch:
callbacks and queue unchanged; live and newly-sent records come from the old
live records or from `extra`. -/
def FrameC (extra : List Append) (s s' : LogState) : Prop :=
  s'.completed = s.completed ∧ s'.blocked = s.blocked ∧
  (∀ a, a ∈ liveA s' → a ∈ liveA s ∨ a ∈ extra) ∧
  ∃ ns, s'.sent = s.sent ++ ns ∧ ∀ a, a ∈ ns.flatten → a ∈ liveA s ∨ a ∈ extra

theorem frameC_of_frame0 {extra : List Append} {s s' : LogState} (h : Frame0 s s') :
    FrameC extra s s' := by
  obtain ⟨hc, hb, hl, ns, hs, hm⟩ := h
  exact ⟨hc, hb, fun a ha => Or.inl (hl ▸ ha), ns, hs, fun a ha => Or.inl (hm a ha)⟩

theorem frame0_comp_frameC {extra : List Append} {s t u : LogState}
    (h1 : Frame0 s t) (h2 : FrameC extra t u) : FrameC extra s u := by
  obtain ⟨hc1, hb1, hl1, ns1, hs1, hm1⟩ := h1
  obtain ⟨hc2, hb2, hl2, ns2, hs2, hm2⟩ := h2
  refine ⟨hc2.trans hc1, hb2.trans hb1, ?_, ns1 ++ ns2, ?_, ?_⟩
  · intro a ha
    rcases hl2 a ha with h | h
    · exact Or.inl (hl1 ▸ h)
    · exact Or.inr h
  · rw [hs2, hs1, List.append_assoc]
  · intro a ha
    rw [List.flatten_append] at ha
    rcases List.mem_append.mp ha with h | h
    · exact Or.inl (hm1 a h)
    · rcases hm2 a h with h2 | h2
      · exact Or.inl (hl1 ▸ h2)
      · exact Or.inr h2

theorem frameC_comp_frame0 {extra : List Append} {s t u : LogState}
    (h1 : FrameC extra s t) (h2 : Frame0 t u) : FrameC extra s u := by
  obtain ⟨hc1, hb1, hl1, ns1, hs1, hm1⟩ := h1
  obtain ⟨hc2, hb2, hl2, ns2, hs2, hm2⟩ := h2
  refine ⟨hc2.trans hc1, hb2.trans hb1, ?_, ns1 ++ ns2, ?_, ?_⟩
  · intro a ha
    exact hl1 a (hl2 ▸ ha)
  · rw [hs2, hs1, List.append_assoc]
  · intro a ha
    rw [List.flatten_append] at ha
    rcases List.mem_append.mp ha with h | h
    · exact hm1 a h
    · exact hl1 a (hm2 a h)

theorem liveB_backModify_add {chunk : Chunk} (g : Batch → Batch)
    (hg : ∀ b, (g b).appends = b.appends ++ chunk) :
    ∀ (bs : List Batch) (a : Append),
      a ∈ ((backModify g bs).map Batch.appends).flatten →
      a ∈ (bs.map Batch.appends).flatten ∨ a ∈ chunk := by
  intro bs
  induction bs with
  | nil => intro a ha; simp [backModify] at ha
  | cons b rest ih =>
    intro a ha
    cases rest with
    | nil =>
      simp only [backModify, List.map_cons, List.map_nil, List.flatten_cons,
        List.flatten_nil, List.append_nil, hg] at ha
      rcases List.mem_append.mp ha with h | h
      · left; simp [h]
      · right; exact h
    | cons b2 rest2 =>
      have ha2 : a ∈ (List.map Batch.appends (b :: backModify g (b2 :: rest2))).flatten := ha
      simp only [List.map_cons, List.flatten_cons] at ha2
      rcases List.mem_append.mp ha2 with h | h
      · left; simp [h]
      · rcases ih a (by simpa using h) with h2 | h2
        · left
          simp only [List.map_cons, List.flatten_cons]
          exact List.mem_append.mpr (Or.inr h2)
        · right; exact h2

theorem frameC_addChunk (chunk : Chunk) (t : LogState) :
    FrameC chunk t { t with
      batches := backModify (fun b => { b with
        appends := b.appends ++ chunk,
        payloadMemoryBytesTotal := b.payloadMemoryBytesTotal + chunkMem chunk }) t.batches } := by
  refine ⟨rfl, rfl, ?_, [], by simp, by simp⟩
  intro a ha
  exact liveB_backModify_add _ (fun _ => rfl) t.batches a ha

theorem frame0_pushBatch (t : LogState) (n x : Nat) :
    Frame0 t { t with
      batches := t.batches ++
        [{ num := n, state := BatchState.BUILDING, appends := [], blobBytesTotal := x,
           payloadMemoryBytesTotal := 0, retryCount := 0 }],
      nextBatchNum := n + 1 } := by
  refine ⟨rfl, rfl, ?_, [], by simp, by simp⟩
  show liveA _ = liveA t
  unfold liveA
  simp

/-- The general frame of `appendImpl`: callbacks and the queue are untouched;
live and newly-sent records come from the previous live records or the new
chunk. -/
theorem frameC_appendImpl (opts : Options) (chunk : Chunk) (defer : Bool) (s : LogState) :
    FrameC chunk s (appendImpl opts chunk defer s).1 := by
  unfold appendImpl
  have htail : ∀ t : LogState, Frame0 s t →
      FrameC chunk s (flushMeMaybe opts defer { t with
        batches := backModify (fun b => { b with
          appends := b.appends ++ chunk,
          payloadMemoryBytesTotal := b.payloadMemoryBytesTotal + chunkMem chunk })
          t.batches }) := by
    intro t ht
    exact frameC_comp_frame0 (frame0_comp_frameC ht (frameC_addChunk chunk t))
      (frame0_flushMeMaybe opts defer _)
  cases hg : s.batches.getLast? with
  | none =>
    dsimp only
    split
    · exact frameC_of_frame0 (frame0_id s)
    · rw [if_neg (by simp [haveBuildingBatch, hg])]
      exact htail _ (frame0_pushBatch s s.nextBatchNum (chunkBlob chunk))
  | some b =>
    dsimp only
    by_cases hb : (b.state == BatchState.BUILDING) = true
    · rw [if_pos hb]
      by_cases hover : b.blobBytesTotal + chunkBlob chunk > opts.maxPayloadSize
      · rw [if_pos hover]
        split
        · exact frameC_of_frame0 (frame0_flushBuildingBatch s)
        · split
          · exact htail _ (frame0_flushBuildingBatch s)
          · exact frameC_comp_frame0
              (frame0_comp_frameC
                (frame0_trans (frame0_flushBuildingBatch s)
                  (frame0_pushBatch (flushBuildingBatch s) (flushBuildingBatch s).nextBatchNum
                    (chunkBlob chunk)))
                (frameC_addChunk chunk _))
              (frame0_flushMeMaybe opts defer _)
      · rw [if_neg hover]
        have hgrow : Frame0 s { s with
            batches := backModify
              (fun x => { x with blobBytesTotal := b.blobBytesTotal + chunkBlob chunk })
              s.batches } := by
          refine ⟨rfl, rfl, ?_, [], by simp, by simp⟩
          exact liveB_backModify_eq
            (fun x => { x with blobBytesTotal := b.blobBytesTotal + chunkBlob chunk })
            (fun _ => rfl) s.batches
        split
        · exact frameC_of_frame0 hgrow
        · split
          · exact htail _ hgrow
          · exact frameC_comp_frame0
              (frame0_comp_frameC
                (frame0_trans hgrow (frame0_pushBatch _ _ _))
                (frameC_addChunk chunk _))
              (frame0_flushMeMaybe opts defer _)
    · rw [if_neg hb]
      split
      · exact frameC_of_frame0 (frame0_id s)
      · split
        · exact htail _ (frame0_id s)
        · exact frameC_comp_frame0
            (frame0_comp_frameC (frame0_pushBatch s _ _) (frameC_addChunk chunk _))
            (frame0_flushMeMaybe opts defer _)

theorem frameC_mono {e e' : List Append} {s s' : LogState}
    (hsub : ∀ a ∈ e, a ∈ e') (h : FrameC e s s') : FrameC e' s s' := by
  obtain ⟨hc, hb, hl, ns, hs, hm⟩ := h
  exact ⟨hc, hb, fun a ha => (hl a ha).imp id (hsub a), ns, hs,
    fun a ha => (hm a ha).imp id (hsub a)⟩

theorem frameC_trans {e : List Append} {s t u : LogState}
    (h1 : FrameC e s t) (h2 : FrameC e t u) : FrameC e s u := by
  obtain ⟨hc1, hb1, hl1, ns1, hs1, hm1⟩ := h1
  obtain ⟨hc2, hb2, hl2, ns2, hs2, hm2⟩ := h2
  refine ⟨hc2.trans hc1, hb2.trans hb1, ?_, ns1 ++ ns2, ?_, ?_⟩
  · intro a ha
    rcases hl2 a ha with h | h
    · exact hl1 a h
    · exact Or.inr h
  · rw [hs2, hs1, List.append_assoc]
  · intro a ha
    rw [List.flatten_append] at ha
    rcases List.mem_append.mp ha with h | h
    · exact hm1 a h
    · rcases hm2 a h with h2 | h2
      · exact hl1 a h2
      · exact Or.inr h2

/-- The unblock loop reissues queued chunks through `appendImpl`: callbacks and
the queue field are untouched, live and newly-sent records come from the
previous live records or the processed queue, and the chunks left over are
chunks of the queue. -/
theorem unblockLoop_frame (opts : Options) :
    ∀ (q : List Chunk) (s : LogState) (fae : Bool),
      FrameC q.flatten s (unblockLoop opts q s fae).1 ∧
      ∀ c ∈ (unblockLoop opts q s fae).2.1, c ∈ q := by
  intro q
  induction q with
  | nil =>
    intro s fae
    refine ⟨frameC_of_frame0 (frame0_id s), ?_⟩
    intro c hc
    simp [unblockLoop] at hc
  | cons c rest ih =>
    intro s fae
    have hsubc : ∀ a ∈ c, a ∈ (c :: rest).flatten := by
      intro a ha
      simp [ha]
    have hsubr : ∀ a ∈ rest.flatten, a ∈ (c :: rest).flatten := by
      intro a ha
      simp [List.flatten_cons, ha]
    rw [unblockLoop]
    cases happ : appendImpl opts c (!rest.isEmpty) s with
    | mk s1 ok =>
      have hC : FrameC c s s1 := by
        have h := frameC_appendImpl opts c (!rest.isEmpty) s
        rw [happ] at h
        exact h
      cases ok with
      | false =>
        dsimp only
        exact ⟨frameC_mono hsubc hC, fun c' hc' => hc'⟩
      | true =>
        dsimp only
        split
        · obtain ⟨ih1, ih2⟩ :=
            ih { s1 with blockedFlushDeferred := s1.blockedFlushDeferred - 1 } true
          refine ⟨frameC_trans (frameC_mono hsubc
              (frameC_comp_frame0 hC ⟨rfl, rfl, rfl, [], by simp, by simp⟩))
              (frameC_mono hsubr ih1), ?_⟩
          intro c' hc'
          exact List.mem_cons_of_mem c (ih2 c' hc')
        · obtain ⟨ih1, ih2⟩ := ih s1 fae
          refine ⟨frameC_trans (frameC_mono hsubc hC) (frameC_mono hsubr ih1), ?_⟩
          intro c' hc'
          exact List.mem_cons_of_mem c (ih2 c' hc')

/-- Per-event frame: live records of the next state come from the previous
live or queued records or the event's own chunk; queued records come from the
previous queue or the event's chunk; anything newly sent was live, queued or
in the event's chunk. -/
def StepFrame (extra : List Append) (s s' : LogState) : Prop :=
  (∀ a, a ∈ liveA s' → a ∈ liveA s ∨ a ∈ blockedFlat s ∨ a ∈ extra) ∧
  (∀ a, a ∈ blockedFlat s' → a ∈ blockedFlat s ∨ a ∈ extra) ∧
  ∃ ns, s'.sent = s.sent ++ ns ∧
    ∀ a, a ∈ ns.flatten → a ∈ liveA s ∨ a ∈ blockedFlat s ∨ a ∈ extra

theorem stepFrame_id {extra : List Append} (s : LogState) : StepFrame extra s s :=
  ⟨fun _ ha => Or.inl ha, fun _ ha => Or.inl ha, [], by simp, by simp⟩

theorem stepFrame_trans {extra : List Append} {s t u : LogState}
    (h1 : StepFrame extra s t) (h2 : StepFrame extra t u) : StepFrame extra s u := by
  obtain ⟨hl1, hb1, ns1, hs1, hm1⟩ := h1
  obtain ⟨hl2, hb2, ns2, hs2, hm2⟩ := h2
  have hlb : ∀ a, (a ∈ liveA t ∨ a ∈ blockedFlat t ∨ a ∈ extra) →
      a ∈ liveA s ∨ a ∈ blockedFlat s ∨ a ∈ extra := by
    intro a h
    rcases h with h | h | h
    · exact hl1 a h
    · rcases hb1 a h with h2 | h2
      · exact Or.inr (Or.inl h2)
      · exact Or.inr (Or.inr h2)
    · exact Or.inr (Or.inr h)
  refine ⟨fun a ha => hlb a (hl2 a ha), ?_, ns1 ++ ns2, ?_, ?_⟩
  · intro a ha
    rcases hb2 a ha with h | h
    · exact hb1 a h
    · exact Or.inr h
  · rw [hs2, hs1, List.append_assoc]
  · intro a ha
    rw [List.flatten_append] at ha
    rcases List.mem_append.mp ha with h | h
    · exact hm1 a h
    · exact hlb a (hm2 a h)

theorem stepFrame_of_frame0 {extra : List Append} {s s' : LogState} (h : Frame0 s s') :
    StepFrame extra s s' := by
  obtain ⟨hc, hb, hl, ns, hs, hm⟩ := h
  refine ⟨fun a ha => Or.inl (hl ▸ ha), ?_, ns, hs, fun a ha => Or.inl (hm a ha)⟩
  intro a ha
  refine Or.inl ?_
  unfold blockedFlat at ha ⊢
  rw [hb] at ha
  exact ha

theorem stepFrame_of_frameC {extra : List Append} {s s' : LogState} (h : FrameC extra s s') :
    StepFrame extra s s' := by
  obtain ⟨hc, hb, hl, ns, hs, hm⟩ := h
  refine ⟨fun a ha => (hl a ha).imp id Or.inr, ?_, ns, hs,
    fun a ha => (hm a ha).imp id Or.inr⟩
  intro a ha
  refine Or.inl ?_
  unfold blockedFlat at ha ⊢
  rw [hb] at ha
  exact ha

theorem stepFrame_clientAppend (opts : Options) (chunk : Chunk) (s : LogState) :
    StepFrame chunk s (clientAppend opts chunk s) := by
  unfold clientAppend
  cases happ : appendImpl opts chunk false s with
  | mk s1 ok =>
    have hC : FrameC chunk s s1 := by
      have h := frameC_appendImpl opts chunk false s
      rw [happ] at h
      exact h
    obtain ⟨hc, hb, hl, ns, hs, hm⟩ := hC
    cases ok with
    | true =>
      dsimp only
      exact stepFrame_of_frameC ⟨hc, hb, hl, ns, hs, hm⟩
    | false =>
      dsimp only
      refine ⟨fun a ha => (hl a ha).imp id Or.inr, ?_, ns, hs,
        fun a ha => (hm a ha).imp id Or.inr⟩
      intro a ha
      have ha2 : a ∈ s.blocked.flatten ∨ a ∈ chunk := by
        simp only [blockedFlat, List.flatten_append, List.flatten_cons, List.flatten_nil,
          List.append_nil, List.mem_append, hb] at ha
        exact ha
      exact ha2

theorem stepFrame_dropBlockedAppends (st : AppendStatus) (rd : Nat) (s : LogState) :
    StepFrame [] s (dropBlockedAppends st rd s) := by
  refine ⟨fun _ ha => Or.inl ha, ?_, [], by simp [dropBlockedAppends], by simp⟩
  intro a ha
  simp [dropBlockedAppends, blockedFlat] at ha

/-- `unblockAppends` invokes no callback; the records it touches move from the
queue into the live batch or the sent log. -/
theorem unblockAppends_frame (opts : Options) (s : LogState) :
    (unblockAppends opts s).completed = s.completed ∧
    StepFrame [] s (unblockAppends opts s) := by
  unfold unblockAppends
  obtain ⟨hC, hrest⟩ := unblockLoop_frame opts s.blocked { s with blocked := [] } false
  cases hul : unblockLoop opts s.blocked { s with blocked := [] } false with
  | mk s1 pr =>
    cases pr with
    | mk rest fae =>
      rw [hul] at hC hrest
      dsimp only at hC hrest ⊢
      obtain ⟨hc1, hb1, hl1, ns1, hs1, hm1⟩ := hC
      have hfin : ∀ f : LogState, Frame0 { s1 with blocked := rest } f →
          f.completed = s.completed ∧ StepFrame [] s f := by
        intro f hf
        obtain ⟨hc2, hb2, hl2, ns2, hs2, hm2⟩ := hf
        constructor
        · rw [hc2]
          exact hc1
        · refine ⟨?_, ?_, ns1 ++ ns2, ?_, ?_⟩
          · intro a ha
            rw [hl2] at ha
            rcases hl1 a ha with h | h
            · exact Or.inl h
            · exact Or.inr (Or.inl h)
          · intro a ha
            have ha2 : a ∈ rest.flatten := by
              unfold blockedFlat at ha
              rw [hb2] at ha
              exact ha
            rw [List.mem_flatten] at ha2
            obtain ⟨c, hc, hac⟩ := ha2
            refine Or.inl ?_
            unfold blockedFlat
            rw [List.mem_flatten]
            exact ⟨c, hrest c hc, hac⟩
          · rw [hs2]
            show s1.sent ++ ns2 = s.sent ++ (ns1 ++ ns2)
            rw [hs1]
            show s.sent ++ ns1 ++ ns2 = s.sent ++ (ns1 ++ ns2)
            rw [List.append_assoc]
          · intro a ha
            rw [List.flatten_append] at ha
            rcases List.mem_append.mp ha with h | h
            · rcases hm1 a h with h2 | h2
              · exact Or.inl h2
              · exact Or.inr (Or.inl h2)
            · rcases hl1 a (hm2 a h) with h2 | h2
              · exact Or.inl h2
              · exact Or.inr (Or.inl h2)
      split
      · exact hfin _ (frame0_flushBuildingBatch _)
      · exact hfin _ (frame0_id _)

theorem liveB_modifyAt_sub (f : Batch → Batch)
    (h : ∀ b a, a ∈ (f b).appends → a ∈ b.appends) :
    ∀ (i : Nat) (bs : List Batch) (a : Append),
      a ∈ ((modifyAt i f bs).map Batch.appends).flatten →
      a ∈ (bs.map Batch.appends).flatten := by
  intro i bs
  induction bs generalizing i with
  | nil =>
    intro a ha
    simp [modifyAt] at ha
  | cons b rest ih =>
    intro a ha
    cases i with
    | zero =>
      simp only [modifyAt, List.map_cons, List.flatten_cons, List.mem_append] at ha ⊢
      rcases ha with h1 | h1
      · exact Or.inl (h b a h1)
      · exact Or.inr h1
    | succ n =>
      simp only [modifyAt, List.map_cons, List.flatten_cons, List.mem_append] at ha ⊢
      rcases ha with h1 | h1
      · exact Or.inl h1
      · exact Or.inr (ih n a h1)

theorem mem_dropFinished : ∀ (bs : List Batch) (b : Batch), b ∈ dropFinished bs → b ∈ bs := by
  intro bs
  induction bs with
  | nil =>
    intro b hb
    simp [dropFinished] at hb
  | cons x r ih =>
    intro b hb
    rw [dropFinished] at hb
    split at hb
    · exact List.mem_cons_of_mem x (ih b hb)
    · exact hb

theorem liveB_dropFinished_sub (bs : List Batch) (a : Append)
    (ha : a ∈ ((dropFinished bs).map Batch.appends).flatten) :
    a ∈ (bs.map Batch.appends).flatten := by
  rw [List.mem_flatten] at ha ⊢
  obtain ⟨l, hl, hal⟩ := ha
  obtain ⟨b, hb, rfl⟩ := List.mem_map.mp hl
  exact ⟨b.appends, List.mem_map_of_mem Batch.appends (mem_dropFinished bs b hb), hal⟩

theorem stepFrame_onAppendReply (opts : Options) (bnum : Nat) (st : AppendStatus)
    (rd : Nat) (allow : Bool) (s : LogState) :
    StepFrame [] s (onAppendReply opts bnum st rd allow s) := by
  unfold onAppendReply
  cases s.batches.findIdx? (fun b => b.num == bnum && b.state == BatchState.INFLIGHT) with
  | none => exact stepFrame_id s
  | some i =>
    dsimp only
    cases s.batches[i]? with
    | none => exact stepFrame_id s
    | some b =>
      dsimp only
      split
      · refine stepFrame_of_frame0 ⟨rfl, rfl, ?_, [], by simp, by simp⟩
        exact liveB_modifyAt_eq
          (fun x => { x with
            state := BatchState.RETRY_PENDING,
            retryCount := x.retryCount + 1 })
          (fun _ => rfl) i s.batches
      · have h01 : StepFrame ([] : List Append) s
            ({ s with
               completed := s.completed ++ b.appends.map
                 (fun a => ({ app := a, status := st, redirect := rd } : Outcome)),
               batches := modifyAt i
                 (fun x => { x with
                   state := BatchState.FINISHED,
                   appends := ([] : List Append) })
                 s.batches,
               releasedMemory := s.releasedMemory + b.payloadMemoryBytesTotal } : LogState) := by
          refine ⟨?_, fun a ha => Or.inl ha, [], by simp, by simp⟩
          intro a ha
          refine Or.inl ?_
          exact liveB_modifyAt_sub _ (fun b' a' hx => by simp at hx) i s.batches a ha
        have h12 : ∀ t : LogState, StepFrame ([] : List Append) t
            ({ t with batches := dropFinished t.batches }) := by
          intro t
          refine ⟨?_, fun a ha => Or.inl ha, [], by simp, by simp⟩
          intro a ha
          exact Or.inl (liveB_dropFinished_sub t.batches a ha)
        split
        · split
          · exact stepFrame_trans (stepFrame_trans h01 (h12 _)) (unblockAppends_frame opts _).2
          · exact stepFrame_trans (stepFrame_trans h01 (h12 _))
              (stepFrame_dropBlockedAppends st rd _)
        · exact stepFrame_trans h01 (h12 _)

/-- Every event's state change respects the frame: records can only move from
the event's chunk or the queue into the live batch, and from the live batch
into the sent log — never out of thin air. -/
theorem step_frame (opts : Options) (s : LogState) (e : Ev) :
    StepFrame (evApps e) s (step opts s e) := by
  cases e with
  | append chunk => exact stepFrame_clientAppend opts chunk s
  | reply bnum st rd allow => exact stepFrame_onAppendReply opts bnum st rd allow s
  | retryFire bnum =>
    show StepFrame [] s (retryFire bnum s)
    unfold retryFire
    cases s.batches.findIdx? (fun b => b.num == bnum && b.state == BatchState.RETRY_PENDING) with
    | none => exact stepFrame_id s
    | some i => exact stepFrame_of_frame0 (frame0_appendBatchAt s i)
  | timeFlush =>
    show StepFrame [] s (flushAll s)
    unfold flushAll
    refine stepFrame_of_frame0 ?_
    split
    · exact frame0_trans (frame0_flushBuildingBatch s) ⟨rfl, rfl, rfl, [], by simp, by simp⟩
    · exact ⟨rfl, rfl, rfl, [], by simp, by simp⟩

/-- A record that is neither live nor queued nor resubmitted by any later
event stays out of the live batch and the queue, and never appears in a send
issued after this point. -/
theorem runFrom_untouched (opts : Options) (a : Append) :
    ∀ (evs : List Ev) (s : LogState),
      a ∉ liveA s → a ∉ blockedFlat s → (∀ e ∈ evs, a ∉ evApps e) →
      a ∉ liveA (runFrom opts s evs) ∧ a ∉ blockedFlat (runFrom opts s evs) ∧
      ∀ l ∈ (runFrom opts s evs).sent, l ∈ s.sent ∨ a ∉ l := by
  intro evs
  induction evs with
  | nil =>
    intro s hl hb _
    exact ⟨hl, hb, fun l hl2 => Or.inl hl2⟩
  | cons e rest ih =>
    intro s hl hb hev
    obtain ⟨hl1, hb1, ns, hs1, hm1⟩ := step_frame opts s e
    have hae : a ∉ evApps e := hev e (List.mem_cons_self e rest)
    have hl' : a ∉ liveA (step opts s e) := by
      intro hx
      rcases hl1 a hx with h | h | h
      · exact hl h
      · exact hb h
      · exact hae h
    have hb' : a ∉ blockedFlat (step opts s e) := by
      intro hx
      rcases hb1 a hx with h | h
      · exact hb h
      · exact hae h
    have hrest : ∀ e' ∈ rest, a ∉ evApps e' :=
      fun e' he' => hev e' (List.mem_cons_of_mem e he')
    obtain ⟨ih1, ih2, ih3⟩ := ih (step opts s e) hl' hb' hrest
    refine ⟨ih1, ih2, ?_⟩
    intro l hl2
    rcases ih3 l hl2 with h | h
    · rw [hs1] at h
      rcases List.mem_append.mp h with h2 | h2
      · exact Or.inl h2
      · refine Or.inr ?_
        intro hal
        have hfl : a ∈ ns.flatten := by
          rw [List.mem_flatten]
          exact ⟨l, h2, hal⟩
        rcases hm1 a hfl with h3 | h3 | h3
        · exact hl h3
        · exact hb h3
        · exact hae h3
    · exact Or.inr h

/-! ### Callback-status accounting -/

theorem clientAppend_completed (opts : Options) (chunk : Chunk) (s : LogState) :
    (clientAppend opts chunk s).completed = s.completed := by
  unfold clientAppend
  cases happ : appendImpl opts chunk false s with
  | mk s1 ok =>
    have hC := frameC_appendImpl opts chunk false s
    rw [happ] at hC
    cases ok with
    | true => exact hC.1
    | false => exact hC.1

/-- When the batch's reply is `E::OK`, every callback invocation carries
`E::OK`: the completion path adds only OK outcomes and `unblockAppends`
invokes no callback. -/
theorem onAppendReply_ok_status (opts : Options) (bnum rd : Nat) (allow : Bool)
    (s : LogState) (h : ∀ o ∈ s.completed, o.status = AppendStatus.OK) :
    ∀ o ∈ (onAppendReply opts bnum AppendStatus.OK rd allow s).completed,
      o.status = AppendStatus.OK := by
  unfold onAppendReply
  cases s.batches.findIdx? (fun b => b.num == bnum && b.state == BatchState.INFLIGHT) with
  | none => exact h
  | some i =>
    dsimp only
    cases s.batches[i]? with
    | none => exact h
    | some b =>
      dsimp only
      rw [if_neg (by simp)]
      have hS1 : ∀ o ∈ s.completed ++ b.appends.map
          (fun a => ({ app := a, status := AppendStatus.OK, redirect := rd } : Outcome)),
          o.status = AppendStatus.OK := by
        intro o ho
        rcases List.mem_append.mp ho with h2 | h2
        · exact h o h2
        · obtain ⟨a, _, rfl⟩ := List.mem_map.mp h2
          rfl
      split
      · split
        · intro o ho
          rw [(unblockAppends_frame opts _).1] at ho
          exact hS1 o ho
        · rename_i hfalse
          simp at hfalse
      · intro o ho
        exact hS1 o ho

theorem step_okAll (opts : Options) (s : LogState) (e : Ev) (hok : okEv e = true)
    (h : ∀ o ∈ s.completed, o.status = AppendStatus.OK) :
    ∀ o ∈ (step opts s e).completed, o.status = AppendStatus.OK := by
  cases e with
  | append chunk =>
    intro o ho
    rw [show step opts s (Ev.append chunk) = clientAppend opts chunk s from rfl,
      clientAppend_completed] at ho
    exact h o ho
  | reply bnum st rd allow =>
    have hst : st = AppendStatus.OK := by
      simpa [okEv] using hok
    subst hst
    exact onAppendReply_ok_status opts bnum rd allow s h
  | retryFire bnum =>
    intro o ho
    have hc : (retryFire bnum s).completed = s.completed := by
      unfold retryFire
      cases s.batches.findIdx? (fun b => b.num == bnum && b.state == BatchState.RETRY_PENDING) with
      | none => rfl
      | some i => exact (frame0_appendBatchAt s i).1
    rw [show step opts s (Ev.retryFire bnum) = retryFire bnum s from rfl, hc] at ho
    exact h o ho
  | timeFlush =>
    intro o ho
    have hc : (flushAll s).completed = s.completed := by
      unfold flushAll
      split
      · exact (frame0_flushBuildingBatch s).1
      · rfl
    rw [show step opts s Ev.timeFlush = flushAll s from rfl, hc] at ho
    exact h o ho

theorem runFrom_okAll (opts : Options) :
    ∀ (evs : List Ev) (s : LogState), (∀ e ∈ evs, okEv e = true) →
      (∀ o ∈ s.completed, o.status = AppendStatus.OK) →
      ∀ o ∈ (runFrom opts s evs).completed, o.status = AppendStatus.OK := by
  intro evs
  induction evs with
  | nil =>
    intro s _ h
    exact h
  | cons e rest ih =>
    intro s hok h
    exact ih (step opts s e) (fun e' he' => hok e' (List.mem_cons_of_mem e he'))
      (step_okAll opts s e (hok e (List.mem_cons_self e rest)) h)

theorem delivered_eq_completedApps (s : LogState)
    (h : ∀ o ∈ s.completed, o.status = AppendStatus.OK) :
    delivered s = completedApps s := by
  unfold delivered completedApps
  congr 1
  refine List.filter_eq_self.mpr ?_
  intro o ho
  simp [h o ho]

theorem Inv1_length_le_one {s : LogState} (h : Inv1 s) : s.batches.length ≤ 1 := by
  unfold Inv1 at h
  cases hbs : s.batches with
  | nil => simp
  | cons b rest =>
    cases rest with
    | nil => simp
    | cons b2 r2 =>
      rw [hbs] at h
      exact h.elim

/-- An `append()` arriving while the single batch is in flight queues the
chunk in `blocked_appends_` and changes nothing else. -/
theorem clientAppend_inflight_queues (opts : Options) (hm : opts.mode = Mode.ONE_AT_A_TIME)
    (chunk : Chunk) (s : LogState) (b : Batch) (hb : s.batches = [b])
    (hst : b.state = BatchState.INFLIGHT ∨ b.state = BatchState.RETRY_PENDING) :
    clientAppend opts chunk s = { s with blocked := s.blocked ++ [chunk] } := by
  have hnotb : (b.state == BatchState.BUILDING) = false := by
    rcases hst with h | h <;> simp [h]
  have happ : appendImpl opts chunk false s = (s, false) := by
    simp [appendImpl, hb, hnotb, haveBuildingBatch, hm]
  unfold clientAppend
  rw [happ]

def wapp1 : Append := { id := 1, size := 1 }

def wapp2 : Append := { id := 2, size := 1 }

def wopts2 : Options :=
  { mode := Mode.ONE_AT_A_TIME, sizeTrigger := none, retryCount := some 0,
    maxPayloadSize := 100 }

def wtrace2 : List Ev := [Ev.append [wapp1], Ev.timeFlush, Ev.append [wapp2]]

def wbatch2 : Batch :=
  { num := 0, state := BatchState.INFLIGHT, appends := [wapp1], blobBytesTotal := 1,
    payloadMemoryBytesTotal := 1, retryCount := 0 }

/-- C2, confirmed.  In one-at-a-time mode, on every reachable state of the
per-log machine: (1) at most one batch exists per log (so at most one is in
flight); (2) an `append()` arriving while the single batch is in flight
(INFLIGHT or awaiting retry) only queues its chunk in `blocked_appends_`;
(3) the records already handed to completion callbacks, the records in
batches and the queued records — each in order — spell out exactly the
client submission sequence; (4) in particular, on a trace whose replies are
all `E::OK`, the records the log acknowledged (in callback order) followed by
the records still in transit equal the client append sequence. -/
theorem one_at_a_time_ordering (opts : Options) (hm : opts.mode = Mode.ONE_AT_A_TIME)
    (evs : List Ev) :
    (run opts evs).batches.length ≤ 1 ∧
    (∀ (b : Batch) (chunk : Chunk), (run opts evs).batches = [b] →
      b.state = BatchState.INFLIGHT ∨ b.state = BatchState.RETRY_PENDING →
      step opts (run opts evs) (Ev.append chunk) =
        { run opts evs with blocked := (run opts evs).blocked ++ [chunk] }) ∧
    completedApps (run opts evs) ++ liveA (run opts evs) ++ blockedFlat (run opts evs) =
      submittedOf evs ∧
    ((∀ e ∈ evs, okEv e = true) →
      delivered (run opts evs) ++ liveA (run opts evs) ++ blockedFlat (run opts evs) =
        submittedOf evs) := by
  obtain ⟨hinv, hq, hord⟩ := run_good opts hm evs
  refine ⟨Inv1_length_le_one hinv, ?_, hord, ?_⟩
  · intro b chunk hb hst
    exact clientAppend_inflight_queues opts hm chunk _ b hb hst
  · intro hok
    have hall : ∀ o ∈ (run opts evs).completed, o.status = AppendStatus.OK :=
      runFrom_okAll opts evs initState hok (by simp [initState])
    rw [delivered_eq_completedApps _ hall]
    exact hord

/-- C2, witness: the guarantee at a concrete one-at-a-time trace — an append,
a time-triggered flush putting batch 0 in flight, and a second append that
must queue. -/
theorem one_at_a_time_ordering_witness :
    wopts2.mode = Mode.ONE_AT_A_TIME ∧
    (run wopts2 wtrace2).batches.length ≤ 1 ∧
    completedApps (run wopts2 wtrace2) ++ liveA (run wopts2 wtrace2) ++
      blockedFlat (run wopts2 wtrace2) = submittedOf wtrace2 ∧
    delivered (run wopts2 wtrace2) ++ liveA (run wopts2 wtrace2) ++
      blockedFlat (run wopts2 wtrace2) = submittedOf wtrace2 ∧
    step wopts2 (run wopts2 wtrace2) (Ev.append [wapp2]) =
      { run wopts2 wtrace2 with blocked := (run wopts2 wtrace2).blocked ++ [[wapp2]] } :=
  ⟨rfl,
   (one_at_a_time_ordering wopts2 rfl wtrace2).1,
   (one_at_a_time_ordering wopts2 rfl wtrace2).2.2.1,
   (one_at_a_time_ordering wopts2 rfl wtrace2).2.2.2 (by decide),
   (one_at_a_time_ordering wopts2 rfl wtrace2).2.1 wbatch2 [wapp2] (by decide) (by decide)⟩

def wapp1d : Append := { id := 11, size := 1 }

def wapp2d : Append := { id := 12, size := 1 }

def wapp3d : Append := { id := 13, size := 1 }

def wopts10 : Options :=
  { mode := Mode.ONE_AT_A_TIME, sizeTrigger := none, retryCount := some 0,
    maxPayloadSize := 100 }

def wtrace10 : List Ev := [Ev.append [wapp1d], Ev.timeFlush, Ev.append [wapp2d]]

def wbatch10 : Batch :=
  { num := 0, state := BatchState.INFLIGHT, appends := [wapp1d], blobBytesTotal := 1,
    payloadMemoryBytesTotal := 1, retryCount := 0 }

def wcont10 : List Ev := [Ev.append [wapp3d], Ev.timeFlush]

/-- C10, confirmed.  In one-at-a-time mode, when the in-flight batch's reply
is a non-OK status and the retry budget is exhausted (`retryCapReached`),
the reply event (a) invokes the failure callback with that same status and
redirect for every record of the batch *and* for every record queued behind
it, clears the queue and the batch, and releases the memory budget of both
(the batch's `payloadMemoryBytesTotal` plus the queued records' payload
bytes), leaving the sent log untouched; and (b) none of the queued records is
ever sent in a later batch: on every continuation of the trace that does not
resubmit the record, every send issued after the drop excludes it. -/
theorem one_at_a_time_drop_blocked (opts : Options) (hm : opts.mode = Mode.ONE_AT_A_TIME)
    (s : LogState) (b : Batch) (code rd : Nat) (allow : Bool)
    (hb : s.batches = [b]) (hst : b.state = BatchState.INFLIGHT)
    (hcap : retryCapReached opts b = true) :
    onAppendReply opts b.num (AppendStatus.E code) rd allow s =
      { s with
        batches := [],
        blocked := [],
        blockedFlushDeferred := 0,
        completed := s.completed
          ++ b.appends.map
            (fun a => { app := a, status := AppendStatus.E code, redirect := rd })
          ++ (blockedFlat s).map
            (fun a => { app := a, status := AppendStatus.E code, redirect := rd }),
        releasedMemory := s.releasedMemory + b.payloadMemoryBytesTotal
          + chunkMem (blockedFlat s) } ∧
    ∀ (evs : List Ev) (a : Append), a ∈ blockedFlat s →
      (∀ e ∈ evs, a ∉ evApps e) →
      ∀ l ∈ (runFrom opts (onAppendReply opts b.num (AppendStatus.E code) rd allow s)
          evs).sent,
        l ∈ s.sent ∨ a ∉ l := by
  have hnotretry : ¬(AppendStatus.E code ≠ AppendStatus.OK ∧
      retryCapReached opts b = false ∧ allow = true) := by
    intro h
    rw [hcap] at h
    exact absurd h.2.1 (by decide)
  have heq : onAppendReply opts b.num (AppendStatus.E code) rd allow s =
      { s with
        batches := [],
        blocked := [],
        blockedFlushDeferred := 0,
        completed := s.completed
          ++ b.appends.map
            (fun a => { app := a, status := AppendStatus.E code, redirect := rd })
          ++ (blockedFlat s).map
            (fun a => { app := a, status := AppendStatus.E code, redirect := rd }),
        releasedMemory := s.releasedMemory + b.payloadMemoryBytesTotal
          + chunkMem (blockedFlat s) } := by
    simp only [onAppendReply, hb]
    simp [hst, hcap, hnotretry, modifyAt, dropFinished, hm, dropBlockedAppends, blockedFlat]
  refine ⟨heq, ?_⟩
  intro evs a ha hevs
  have hl0 : a ∉ liveA (onAppendReply opts b.num (AppendStatus.E code) rd allow s) := by
    rw [heq]
    simp [liveA]
  have hb0 : a ∉ blockedFlat (onAppendReply opts b.num (AppendStatus.E code) rd allow s) := by
    rw [heq]
    simp [blockedFlat]
  have hsent : (onAppendReply opts b.num (AppendStatus.E code) rd allow s).sent = s.sent := by
    rw [heq]
  obtain ⟨_, _, h3⟩ := runFrom_untouched opts a evs _ hl0 hb0 hevs
  intro l hl2
  rcases h3 l hl2 with h | h
  · rw [hsent] at h
    exact Or.inl h
  · exact Or.inr h

/-- C10, witness: a concrete trace puts batch 0 in flight with `wapp1d` and
queues `wapp2d` behind it; the failing reply (status `E 5`, redirect 7, retry
budget 0) fails both with the same status and redirect and releases their
memory; and on the continuation `wcont10` (which appends `wapp3d` and
flushes), the post-drop send `[wapp3d]` excludes the dropped `wapp2d`. -/
theorem one_at_a_time_drop_blocked_witness :
    wopts10.mode = Mode.ONE_AT_A_TIME ∧
    (run wopts10 wtrace10).batches = [wbatch10] ∧
    wbatch10.state = BatchState.INFLIGHT ∧
    retryCapReached wopts10 wbatch10 = true ∧
    onAppendReply wopts10 wbatch10.num (AppendStatus.E 5) 7 true (run wopts10 wtrace10) =
      { run wopts10 wtrace10 with
        batches := [],
        blocked := [],
        blockedFlushDeferred := 0,
        completed := (run wopts10 wtrace10).completed
          ++ wbatch10.appends.map
            (fun a => { app := a, status := AppendStatus.E 5, redirect := 7 })
          ++ (blockedFlat (run wopts10 wtrace10)).map
            (fun a => { app := a, status := AppendStatus.E 5, redirect := 7 }),
        releasedMemory := (run wopts10 wtrace10).releasedMemory
          + wbatch10.payloadMemoryBytesTotal
          + chunkMem (blockedFlat (run wopts10 wtrace10)) } ∧
    wapp2d ∉ ([wapp3d] : List Append) :=
  ⟨rfl, by decide, by decide, by decide,
   (one_at_a_time_drop_blocked wopts10 rfl (run wopts10 wtrace10) wbatch10 5 7 true
     (by decide) (by decide) (by decide)).1,
   ((one_at_a_time_drop_blocked wopts10 rfl (run wopts10 wtrace10) wbatch10 5 7 true
       (by decide) (by decide) (by decide)).2 wcont10 wapp2d (by decide) (by decide)
     [wapp3d] (by decide)).resolve_left (by decide)⟩

end BufferedWriter

end LogDevice
